import Mathlib

/-!
# Verification of the `zk_shielded` confidential-asset pool

Shallow embedding of the shielded-pool engine of this repository
(`programs/zk_shielded/src`): the Keccak-256 hash used by the Merkle
accumulator, the nullifier bloom filter and the VK store; the Merkle tree
state with its incremental `insert`; the nullifier set; the pool root
window; and the four value-flow instruction handlers.

Bytes are modelled as `Nat` (each `< 256`), byte strings as `List Nat`,
64-bit machine words as `Nat` reduced `% 2^64` where the source wraps.
-/

set_option maxRecDepth 100000
set_option linter.unusedVariables false

deriving instance DecidableEq for Except

namespace ZkShielded

/-! ## Keccak-256

The repository hashes with `sha3::Keccak256` (Keccak with the original
`0x01` domain padding, rate 136, 256-bit output).  This section embeds
that function over byte lists. Lanes are `Nat` values `< 2^64`, the
state is the standard 5×5 lane grid stored row-major (index `x + 5*y`).
-/

def MASK64 : Nat := 2 ^ 64 - 1

/-- 64-bit left rotation. -/
def rotl64 (x n : Nat) : Nat :=
  (Nat.land (x <<< (n % 64)) MASK64) ||| (x >>> (64 - n % 64))

/-- Lane of the Keccak state at coordinates `(x, y)`. -/
def kget (s : List Nat) (x y : Nat) : Nat := s.getD (x + 5 * y) 0

/-- Round constants of Keccak-f[1600]. -/
def keccakRC : List Nat :=
  [1, 32898,
   9223372036854808714, 9223372039002292224,
   32907, 2147483649,
   9223372039002292353, 9223372036854808585,
   138, 136,
   2147516425, 2147483658,
   2147516555, 9223372036854775947,
   9223372036854808713, 9223372036854808579,
   9223372036854808578, 9223372036854775936,
   32778, 9223372039002259466,
   9223372039002292353, 9223372036854808704,
   2147483649, 9223372039002292232]

/-- One Keccak round on an explicit 25-lane state (θ, ρ, π, χ, ι unrolled;
rotation offsets are the standard Keccak table). -/
def keccakRound (s : List Nat) (rc : Nat) : List Nat :=
  match s with
  | [a0, a1, a2, a3, a4, a5, a6, a7, a8, a9, a10, a11, a12, a13, a14, a15, a16, a17, a18, a19, a20, a21, a22, a23, a24] =>
    let c0 := a0 ^^^ a5 ^^^ a10 ^^^ a15 ^^^ a20
    let c1 := a1 ^^^ a6 ^^^ a11 ^^^ a16 ^^^ a21
    let c2 := a2 ^^^ a7 ^^^ a12 ^^^ a17 ^^^ a22
    let c3 := a3 ^^^ a8 ^^^ a13 ^^^ a18 ^^^ a23
    let c4 := a4 ^^^ a9 ^^^ a14 ^^^ a19 ^^^ a24
    let d0 := c4 ^^^ rotl64 c1 1
    let d1 := c0 ^^^ rotl64 c2 1
    let d2 := c1 ^^^ rotl64 c3 1
    let d3 := c2 ^^^ rotl64 c4 1
    let d4 := c3 ^^^ rotl64 c0 1
    let t0 := a0 ^^^ d0
    let t1 := a1 ^^^ d1
    let t2 := a2 ^^^ d2
    let t3 := a3 ^^^ d3
    let t4 := a4 ^^^ d4
    let t5 := a5 ^^^ d0
    let t6 := a6 ^^^ d1
    let t7 := a7 ^^^ d2
    let t8 := a8 ^^^ d3
    let t9 := a9 ^^^ d4
    let t10 := a10 ^^^ d0
    let t11 := a11 ^^^ d1
    let t12 := a12 ^^^ d2
    let t13 := a13 ^^^ d3
    let t14 := a14 ^^^ d4
    let t15 := a15 ^^^ d0
    let t16 := a16 ^^^ d1
    let t17 := a17 ^^^ d2
    let t18 := a18 ^^^ d3
    let t19 := a19 ^^^ d4
    let t20 := a20 ^^^ d0
    let t21 := a21 ^^^ d1
    let t22 := a22 ^^^ d2
    let t23 := a23 ^^^ d3
    let t24 := a24 ^^^ d4
    let b0 := rotl64 t0 0
    let b1 := rotl64 t6 44
    let b2 := rotl64 t12 43
    let b3 := rotl64 t18 21
    let b4 := rotl64 t24 14
    let b5 := rotl64 t3 28
    let b6 := rotl64 t9 20
    let b7 := rotl64 t10 3
    let b8 := rotl64 t16 45
    let b9 := rotl64 t22 61
    let b10 := rotl64 t1 1
    let b11 := rotl64 t7 6
    let b12 := rotl64 t13 25
    let b13 := rotl64 t19 8
    let b14 := rotl64 t20 18
    let b15 := rotl64 t4 27
    let b16 := rotl64 t5 36
    let b17 := rotl64 t11 10
    let b18 := rotl64 t17 15
    let b19 := rotl64 t23 56
    let b20 := rotl64 t2 62
    let b21 := rotl64 t8 55
    let b22 := rotl64 t14 39
    let b23 := rotl64 t15 41
    let b24 := rotl64 t21 2
    let e0 := b0 ^^^ (Nat.land (b1 ^^^ MASK64) b2)
    let e1 := b1 ^^^ (Nat.land (b2 ^^^ MASK64) b3)
    let e2 := b2 ^^^ (Nat.land (b3 ^^^ MASK64) b4)
    let e3 := b3 ^^^ (Nat.land (b4 ^^^ MASK64) b0)
    let e4 := b4 ^^^ (Nat.land (b0 ^^^ MASK64) b1)
    let e5 := b5 ^^^ (Nat.land (b6 ^^^ MASK64) b7)
    let e6 := b6 ^^^ (Nat.land (b7 ^^^ MASK64) b8)
    let e7 := b7 ^^^ (Nat.land (b8 ^^^ MASK64) b9)
    let e8 := b8 ^^^ (Nat.land (b9 ^^^ MASK64) b5)
    let e9 := b9 ^^^ (Nat.land (b5 ^^^ MASK64) b6)
    let e10 := b10 ^^^ (Nat.land (b11 ^^^ MASK64) b12)
    let e11 := b11 ^^^ (Nat.land (b12 ^^^ MASK64) b13)
    let e12 := b12 ^^^ (Nat.land (b13 ^^^ MASK64) b14)
    let e13 := b13 ^^^ (Nat.land (b14 ^^^ MASK64) b10)
    let e14 := b14 ^^^ (Nat.land (b10 ^^^ MASK64) b11)
    let e15 := b15 ^^^ (Nat.land (b16 ^^^ MASK64) b17)
    let e16 := b16 ^^^ (Nat.land (b17 ^^^ MASK64) b18)
    let e17 := b17 ^^^ (Nat.land (b18 ^^^ MASK64) b19)
    let e18 := b18 ^^^ (Nat.land (b19 ^^^ MASK64) b15)
    let e19 := b19 ^^^ (Nat.land (b15 ^^^ MASK64) b16)
    let e20 := b20 ^^^ (Nat.land (b21 ^^^ MASK64) b22)
    let e21 := b21 ^^^ (Nat.land (b22 ^^^ MASK64) b23)
    let e22 := b22 ^^^ (Nat.land (b23 ^^^ MASK64) b24)
    let e23 := b23 ^^^ (Nat.land (b24 ^^^ MASK64) b20)
    let e24 := b24 ^^^ (Nat.land (b20 ^^^ MASK64) b21)
    [e0 ^^^ rc, e1, e2, e3, e4, e5, e6, e7, e8, e9, e10, e11, e12, e13, e14, e15, e16, e17, e18, e19, e20, e21, e22, e23, e24]
  | _ => s

/-- The Keccak-f[1600] permutation (24 rounds). -/
def keccakF (s : List Nat) : List Nat :=
  keccakRC.foldl keccakRound s

/-- Little-endian bytes of width `k` of a natural number. -/
def toLeBytes : Nat → Nat → List Nat
  | 0, _ => []
  | k + 1, n => n % 256 :: toLeBytes k (n / 256)

/-- Value of a little-endian byte list. -/
def numLE : List Nat → Nat
  | [] => 0
  | b :: bs => b + 256 * numLE bs

/-- Split a byte list into 8-byte little-endian lanes (fuel-driven so that
kernel reduction works; the fuel is the list length, always sufficient). -/
def bytesToLanesAux : Nat → List Nat → List Nat
  | 0, _ => []
  | _, [] => []
  | fuel + 1, bs => numLE (bs.take 8) :: bytesToLanesAux fuel (bs.drop 8)

def bytesToLanes (bs : List Nat) : List Nat := bytesToLanesAux bs.length bs

/-- Multi-rate padding of Keccak (`0x01 … 0x80`, rate 136 bytes). -/
def keccakPad (msg : List Nat) : List Nat :=
  let r := 136
  let m := msg.length % r
  if m == r - 1 then msg ++ [0x81]
  else msg ++ (0x01 :: List.replicate (r - m - 2) 0 ++ [0x80])

/-- Absorb one 136-byte block into the state and permute. -/
def keccakAbsorbBlock (s : List Nat) (block : List Nat) : List Nat :=
  let lanes := bytesToLanes block ++ List.replicate 8 0
  keccakF (List.zipWith (fun a b => a ^^^ b) s lanes)

/-- Absorb a padded message, 136 bytes at a time (fuel-driven). -/
def keccakAbsorbAux : Nat → List Nat → List Nat → List Nat
  | 0, s, _ => s
  | _, s, [] => s
  | fuel + 1, s, padded =>
    keccakAbsorbAux fuel (keccakAbsorbBlock s (padded.take 136)) (padded.drop 136)

def keccakAbsorb (s : List Nat) (padded : List Nat) : List Nat :=
  keccakAbsorbAux padded.length s padded

/-- Keccak-256 of a byte string, as 32 output bytes. -/
def keccak256 (msg : List Nat) : List Nat :=
  let s := keccakAbsorb (List.replicate 25 0) (keccakPad msg)
  (toLeBytes 8 (kget s 0 0)) ++ (toLeBytes 8 (kget s 1 0)) ++
  (toLeBytes 8 (kget s 2 0)) ++ (toLeBytes 8 (kget s 3 0))

/-- Keccak-256 of the empty string (standard test vector). -/
example : keccak256 [] =
    [0xc5, 0xd2, 0x46, 0x01, 0x86, 0xf7, 0x23, 0x3c,
     0x92, 0x7e, 0x7d, 0xb2, 0xdc, 0xc7, 0x03, 0xc0,
     0xe5, 0x00, 0xb6, 0x53, 0xca, 0x82, 0x27, 0x3b,
     0x7b, 0xfa, 0xd8, 0x04, 0x5d, 0x85, 0xa4, 0x70] := by decide

/-- Keccak-256 of "abc" (standard test vector). -/
example : keccak256 [0x61, 0x62, 0x63] =
    [0x4e, 0x03, 0x65, 0x7a, 0xea, 0x45, 0xa9, 0x4f,
     0xc7, 0xd4, 0x7b, 0xa8, 0x26, 0xc8, 0xd6, 0x67,
     0xc0, 0xd1, 0xe6, 0xe3, 0x3a, 0x64, 0xa0, 0x36,
     0xec, 0x44, 0xf5, 0x8f, 0xa1, 0x2d, 0x6c, 0x45] := by decide


/-! ## Errors

`programs/zk_shielded/src/errors.rs`; `CpiFailure` stands for an error
propagated from a host/token-program CPI (the transparent token leg). -/

inductive ZkShieldedError
  | InvalidProof
  | NullifierAlreadySpent
  | InvalidMerkleRoot
  | PoolNotActive
  | Unauthorized
  | InvalidAmount
  | MerkleTreeFull
  | InsufficientBalance
  | InvalidCommitment
  | InvalidVerificationKey
  | BloomFilterHit
  | TokenMintMismatch
  | RelayerFeeExceedsMax
  | InvalidPublicInputs
  | ArithmeticOverflow
  | MissingTokenProgram
  | MissingTokenAccount
  | MissingPoolVault
  | InvalidTokenMint
  | InvalidTokenOwner
  | InsufficientPoolBalance
  | CpiFailure
deriving Repr, DecidableEq

/-! ## Merkle tree state

`programs/zk_shielded/src/state/merkle_tree.rs`.  The on-chain `pool`
pubkey and `bump` fields play no role in the tree algebra and are not
modelled. -/

/-- `MerkleTreeState::ZERO_VALUE`. -/
def ZERO_VALUE : List Nat :=
  [0x30, 0x64, 0x4e, 0x72, 0xe1, 0x31, 0xa0, 0x29,
   0xb8, 0x50, 0x45, 0xb6, 0x81, 0x81, 0x58, 0x5d,
   0x97, 0x81, 0x6a, 0x91, 0x68, 0x71, 0xca, 0x8d,
   0x94, 0xa0, 0x38, 0x73, 0x2d, 0x5c, 0x96, 0x0c]

/-- `MerkleTreeState::hash_pair`: Keccak-256 of `left ‖ right`. -/
def hash_pair (left right : List Nat) : List Nat := keccak256 (left ++ right)

/-- The canonical per-level zero value: `ZERO_VALUE` hashed with itself
`level` times (as computed by `initialize` and `get_zero_for_level`). -/
def zeroAtLevel : Nat → List Nat
  | 0 => ZERO_VALUE
  | l + 1 => hash_pair (zeroAtLevel l) (zeroAtLevel l)

structure MerkleTreeState where
  root : List Nat
  leaf_count : Nat
  depth : Nat
  filled_subtrees : List (List Nat)
deriving Repr, DecidableEq

/-- `MerkleTreeState::initialize`: zero subtrees at every level, root is the
depth-level zero. -/
def MerkleTreeState.initTree (depth : Nat) : MerkleTreeState :=
  { root := zeroAtLevel depth
    leaf_count := 0
    depth := depth
    filled_subtrees := (List.range (depth + 1)).map zeroAtLevel }

/-- One iteration of the `for level in 0..depth` loop of
`MerkleTreeState::insert`.  State: (current_hash, current_index,
filled_subtrees); `leaf_count` is the pre-insert count, unchanged during
the loop. -/
def insertLevel (leaf_count : Nat)
    (st : List Nat × Nat × List (List Nat)) (level : Nat) :
    List Nat × Nat × List (List Nat) :=
  let (current_hash, current_index, filled) := st
  let is_left := current_index % 2 == 0
  let (left, right, filled1) :=
    if is_left then
      let fupd := if current_index + 1 == leaf_count + 1
                  then filled.set level current_hash else filled
      (current_hash,
       if level < fupd.length then zeroAtLevel level else ZERO_VALUE,
       fupd)
    else
      (filled.getD level ZERO_VALUE, current_hash, filled)
  let current_hash1 := hash_pair left right
  let current_index1 := current_index / 2
  let filled2 := if current_index1 * 2 + 1 == leaf_count / 2 ^ level
                 then filled1.set (level + 1) current_hash1 else filled1
  (current_hash1, current_index1, filled2)

/-- `MerkleTreeState::insert`. -/
def MerkleTreeState.insert (t : MerkleTreeState) (leaf : List Nat) :
    Except ZkShieldedError (Nat × MerkleTreeState) :=
  let leaf_index := t.leaf_count
  let max_leaves := 2 ^ t.depth
  if leaf_index < max_leaves then
    let res := (List.range t.depth).foldl (insertLevel t.leaf_count)
                 (leaf, leaf_index, t.filled_subtrees)
    .ok (leaf_index,
      { t with root := res.1, leaf_count := t.leaf_count + 1,
               filled_subtrees := res.2.2 })
  else .error .MerkleTreeFull

/-- Insert a list of leaves in order. -/
def insertAll (t : MerkleTreeState) :
    List (List Nat) → Except ZkShieldedError MerkleTreeState
  | [] => .ok t
  | l :: ls =>
    match t.insert l with
    | .ok r => insertAll r.2 ls
    | .error e => .error e

/-! ### Reference Merkle root (the claim side)

The root of the complete binary Merkle tree of a given depth whose
leftmost leaves are the inserted leaves in order and whose remaining
leaves are `ZERO_VALUE`, under the same two-input hash. -/

/-- Node at `level`, horizontal position `idx`, of the complete tree over
`leaves` padded with `ZERO_VALUE`. -/
def specNode (leaves : List (List Nat)) : Nat → Nat → List Nat
  | 0, idx => leaves.getD idx ZERO_VALUE
  | l + 1, idx =>
    hash_pair (specNode leaves l (2 * idx)) (specNode leaves l (2 * idx + 1))

/-- Root of the complete depth-`depth` Merkle tree over `leaves`. -/
def merkleRootSpec (depth : Nat) (leaves : List (List Nat)) : List Nat :=
  specNode leaves depth 0

/-- Concrete leaves for testing. -/
def tleaf (i : Nat) : List Nat := (i + 1) :: List.replicate 31 0

example :
    ((insertAll (MerkleTreeState.initTree 2) [tleaf 0]).map
      MerkleTreeState.root) =
    .ok (merkleRootSpec 2 [tleaf 0]) := by decide

example :
    ((insertAll (MerkleTreeState.initTree 2) [tleaf 0, tleaf 1, tleaf 2]).map
      MerkleTreeState.root) =
    .ok (merkleRootSpec 2 [tleaf 0, tleaf 1, tleaf 2]) := by decide

/-! ## Nullifier set

`programs/zk_shielded/src/state/nullifier_set.rs` (the zero-copy bloom
filter; the `pool`, `bump` and `_padding` fields are not modelled). -/

structure NullifierSet where
  count : Nat
  num_hash_functions : Nat
  bloom_filter : List Nat
deriving Repr, DecidableEq

/-- `NullifierSet::BLOOM_SIZE_BITS`. -/
def BLOOM_SIZE_BITS : Nat := 256 * 64

/-- `NullifierSet::get_bit_index`: double hashing `h1 + i*h2` over the low
64 bits of `KECCAK(n)` and `KECCAK(n ‖ 0x01)`, with wrapping 64-bit
arithmetic, reduced mod the filter size. -/
def get_bit_index (nullifier : List Nat) (hash_index : Nat) : Nat :=
  let h1_val := numLE ((keccak256 nullifier).take 8)
  let h2_val := numLE ((keccak256 (nullifier ++ [0x01])).take 8)
  let combined := (h1_val + (hash_index % 2 ^ 64) * h2_val % 2 ^ 64) % 2 ^ 64
  combined % BLOOM_SIZE_BITS

/-- The test `bloom_filter[bit/64] & (1 << bit%64) != 0` shared by
`might_contain`. -/
def bloomBit (bl : List Nat) (bit : Nat) : Bool :=
  (bl.getD (bit / 64) 0) &&& (1 <<< (bit % 64)) != 0

/-- The update `bloom_filter[bit/64] |= 1 << bit%64` performed by `add`. -/
def orBit (bl : List Nat) (bit : Nat) : List Nat :=
  bl.set (bit / 64) ((bl.getD (bit / 64) 0) ||| (1 <<< (bit % 64)))

/-- `NullifierSet::might_contain`: true iff all `k` probed bits are set. -/
def NullifierSet.might_contain (s : NullifierSet) (nullifier : List Nat) : Bool :=
  (List.range s.num_hash_functions).all fun i =>
    bloomBit s.bloom_filter (get_bit_index nullifier i)

/-- `NullifierSet::add`: set all `k` probed bits, increment `count`. -/
def NullifierSet.add (s : NullifierSet) (nullifier : List Nat) : NullifierSet :=
  { s with
    bloom_filter := (List.range s.num_hash_functions).foldl
      (fun bl i => orBit bl (get_bit_index nullifier i)) s.bloom_filter
    count := s.count + 1 }

/-- Iterated `NullifierSet::add`. -/
def addAll (s : NullifierSet) : List (List Nat) → NullifierSet
  | [] => s
  | n :: ns => addAll (s.add n) ns

/-! ## Shielded pool

`programs/zk_shielded/src/state/pool.rs` (the `bump` seed is not
modelled; pubkeys are 32-byte lists). -/

structure ShieldedPool where
  authority : List Nat
  token_mint : List Nat
  merkle_root : List Nat
  tree_depth : Nat
  next_leaf_index : Nat
  vk_hash : List Nat
  total_shielded : Nat
  is_active : Bool
  historical_roots : List (List Nat)
  max_historical_roots : Nat
  created_at : Int
  last_tx_at : Int
  relayer_fee_bps : Nat
  relayer : List Nat
deriving Repr, DecidableEq

/-- `ShieldedPool::MAX_HISTORICAL_ROOTS`. -/
def MAX_HISTORICAL_ROOTS : Nat := 100

/-- `ShieldedPool::DEFAULT_TREE_DEPTH`. -/
def DEFAULT_TREE_DEPTH : Nat := 20

/-- `ShieldedPool::is_valid_root`. -/
def ShieldedPool.is_valid_root (p : ShieldedPool) (root : List Nat) : Bool :=
  if p.merkle_root == root then true else p.historical_roots.contains root

/-- `ShieldedPool::update_root` (`Vec::remove(0)` is `drop 1`). -/
def ShieldedPool.update_root (p : ShieldedPool) (new_root : List Nat) : ShieldedPool :=
  let hist := if p.historical_roots.length ≥ p.max_historical_roots
              then p.historical_roots.drop 1
              else p.historical_roots
  { p with historical_roots := hist ++ [p.merkle_root], merkle_root := new_root }

/-! ## Public-amount field encoding

`programs/zk_shielded/src/verifier/groth16.rs`. -/

/-- Two's-complement value of a `u64` bit pattern read back as `i64`
(the `amount as i64` cast, which is always wrapping in Rust). -/
def u64AsI64 (a : Nat) : Int :=
  if a < 2 ^ 63 then (a : Int) else (a : Int) - 2 ^ 64

/-- `i64` negation; negating `i64::MIN` wraps to itself (release-mode
two's-complement wrap — the only input on which modes differ). -/
def i64Neg (v : Int) : Int := if v = -(2 ^ 63) then v else -v

/-- The `public_amount = -(amount as i64)` computed by the `unshield`
handler (`unshield.rs` line 145). -/
def unshieldPublicAmount (amount : Nat) : Int := i64Neg (u64AsI64 amount)

/-- The BN254 Fr modulus bytes (little-endian) hard-coded in
`i64_to_field_bytes`. -/
def frModulusBytes : List Nat :=
  [0x01, 0x00, 0x00, 0xf0, 0x93, 0xf5, 0xe1, 0x43,
   0x91, 0x70, 0xb9, 0x79, 0x48, 0xe8, 0x33, 0x28,
   0x5d, 0x58, 0x81, 0x81, 0xb6, 0x45, 0x50, 0xb8,
   0x29, 0xa0, 0x31, 0xe1, 0x72, 0x4e, 0x64, 0x30]

/-- The byte-wise subtraction-with-borrow loop of `i64_to_field_bytes`
(first argument is the running borrow). -/
def subLE : Nat → List Nat → List Nat → List Nat
  | _, [], _ => []
  | b, p :: ps, [] =>
    ((p + 256 - b) % 256) :: subLE (if p < b then 1 else 0) ps []
  | b, p :: ps, v :: vs =>
    ((p + 256 - v - b) % 256) :: subLE (if p < v + b then 1 else 0) ps vs

/-- `Groth16Verifier::i64_to_field_bytes`: little-endian bytes of the value
itself for `value ≥ 0`, and of `p − |value|` (byte subtraction against the
hard-coded modulus) for `value < 0`. -/
def i64_to_field_bytes (value : Int) : List Nat :=
  if 0 ≤ value then toLeBytes 8 value.toNat ++ List.replicate 24 0
  else subLE 0 frModulusBytes (toLeBytes 8 value.natAbs ++ List.replicate 24 0)

/-- The BN254 scalar-field modulus named `r` by the specification. -/
def rBN254 : Nat :=
  21888242871839275222246405745257275088548364400416034343698204186575808495617

/-- The encoding the specification describes: 32-byte little-endian bytes
of `v` itself for `v ≥ 0` and of `r − |v|` for `v < 0`. -/
def fieldEncSpec (v : Int) : List Nat :=
  if 0 ≤ v then toLeBytes 32 v.toNat else toLeBytes 32 (rBN254 - v.natAbs)

/-! ## Instruction handlers

`programs/zk_shielded/src/instructions/{shield,transfer,unshield,
transfer_via_relayer}.rs`, each including the Anchor account constraints
that run before the handler body, in source order.  Host facilities that
live outside the shielded state — the VK-data account bytes, the
`alt_bn128` pairing syscall, the clock, pool lamports and rent, the SPL
token accounts and the token-program CPI — enter as an explicit
environment.  Each handler returns the new state together with the
ordered trace of its effects. -/

/-- The system program id (32 zero bytes); a pool whose `token_mint`
equals it holds native SOL. -/
def systemProgramId : List Nat := List.replicate 32 0

/-- The all-zero 32-byte sentinel commitment. -/
def zero32 : List Nat := List.replicate 32 0

/-- Observable effects of a handler, in execution order. -/
inductive Ev
  | tokenLeg
  | merkleInsert
  | nullifierAdd
  | rootUpdate
  | poolWrite
  | emitEvent
deriving Repr, DecidableEq

/-- The three shielded accounts of one pool. -/
structure SysState where
  pool : ShieldedPool
  tree : MerkleTreeState
  ns : NullifierSet
deriving Repr, DecidableEq

/-- Host-environment inputs of a single instruction call. `verify` is the
outcome of `Groth16Verifier::verify_transfer` (pairing syscalls,
abstracted as an oracle: `.error e` = parse/precompile error, `.ok b` =
pairing result); `splCheck` is the first failing check of the SPL
account-validation block, if any; `tokenCpiOk` is the outcome of the
token-program CPI. -/
structure Env where
  vkData : List Nat
  verify : Except ZkShieldedError Bool
  clockTs : Int
  poolLamports : Nat
  rentMin : Nat
  tokenCpiOk : Bool
  splCheck : Option ZkShieldedError
  signer : List Nat
deriving Repr, DecidableEq

/-- Modelled from the spec: `MerkleTreeState::insert_with_root` is called
by `shield` and `unshield` but its definition is not among the provided
sources (only its call sites are).  Per §4.1, §4.5.1 and the design notes
("`insert_with_root` trusts a client-supplied root"), it appends the leaf
at the next index, adopting the client-computed `new_root` instead of
rehashing the path, and fails with `MerkleTreeFull` when
`leaf_count = 2^depth`. -/
def MerkleTreeState.insert_with_root (t : MerkleTreeState)
    (_leaf new_root : List Nat) :
    Except ZkShieldedError (Nat × MerkleTreeState) :=
  let leaf_index := t.leaf_count
  if leaf_index < 2 ^ t.depth then
    .ok (leaf_index,
      { t with root := new_root, leaf_count := t.leaf_count + 1 })
  else .error .MerkleTreeFull

/-- Outcome of the transparent token leg shared by `shield` (depositor →
pool) and the SPL branch of `unshield`: for the native asset a
system-program/lamport move whose only failure is the CPI itself; for an
SPL asset the option-account and mint checks and then the token-program
CPI. `none` = the leg succeeds. -/
def tokenLegOutcome (s : SysState) (env : Env) : Option ZkShieldedError :=
  if s.pool.token_mint = systemProgramId then
    if env.tokenCpiOk = false then some .CpiFailure else none
  else
    match env.splCheck with
    | some e => some e
    | none => if env.tokenCpiOk = false then some .CpiFailure else none

/-- Outcome of the unshield token leg: for the native asset the
`pool_lamports.saturating_sub(rent) ≥ amount` check guards a direct
lamport move; for an SPL asset as in `tokenLegOutcome`. -/
def unshieldTokenLegOutcome (s : SysState) (env : Env) (amount : Nat) :
    Option ZkShieldedError :=
  if s.pool.token_mint = systemProgramId then
    if env.poolLamports - env.rentMin < amount then
      some .InsufficientPoolBalance
    else none
  else
    match env.splCheck with
    | some e => some e
    | none => if env.tokenCpiOk = false then some .CpiFailure else none

/-- `shield` handler. -/
def shieldStep (s : SysState) (env : Env) (amount : Nat)
    (commitment new_root : List Nat) :
    Except ZkShieldedError (SysState × List Ev) :=
  if s.pool.is_active = false then .error .PoolNotActive
  else if amount = 0 then .error .InvalidAmount
  else
    match tokenLegOutcome s env with
    | some e => .error e
    | none =>
      match s.tree.insert_with_root commitment new_root with
      | .error e => .error e
      | .ok (_, tree1) =>
        if s.pool.total_shielded + amount < 2 ^ 64 then
          let pool1 := s.pool.update_root tree1.root
          let pool2 := { pool1 with
            next_leaf_index := tree1.leaf_count
            total_shielded := s.pool.total_shielded + amount
            last_tx_at := env.clockTs }
          .ok ({ s with tree := tree1, pool := pool2 },
               [.tokenLeg, .merkleInsert, .rootUpdate, .poolWrite,
                .emitEvent])
        else .error .ArithmeticOverflow

/-- `transfer` handler. -/
def transferStep (s : SysState) (env : Env)
    (n1 n2 c1 c2 merkle_root : List Nat) :
    Except ZkShieldedError (SysState × List Ev) :=
  if s.pool.is_active = false then .error .PoolNotActive
  else if s.pool.is_valid_root merkle_root = false then
    .error .InvalidMerkleRoot
  else if s.ns.might_contain n1 = true then .error .NullifierAlreadySpent
  else if s.ns.might_contain n2 = true then .error .NullifierAlreadySpent
  else if keccak256 env.vkData ≠ s.pool.vk_hash then
    .error .InvalidVerificationKey
  else
    match env.verify with
    | .error e => .error e
    | .ok false => .error .InvalidProof
    | .ok true =>
      let ns1 := (s.ns.add n1).add n2
      match s.tree.insert c1 with
      | .error e => .error e
      | .ok (_, tree1) =>
        match tree1.insert c2 with
        | .error e => .error e
        | .ok (_, tree2) =>
          let pool1 := s.pool.update_root tree2.root
          let pool2 := { pool1 with
            next_leaf_index := tree2.leaf_count
            last_tx_at := env.clockTs }
          .ok ({ pool := pool2, tree := tree2, ns := ns1 },
               [.nullifierAdd, .nullifierAdd, .merkleInsert, .merkleInsert,
                .rootUpdate, .poolWrite, .emitEvent])

/-- `unshield` handler. -/
def unshieldStep (s : SysState) (env : Env)
    (n1 n2 c1 c2 merkle_root : List Nat) (amount : Nat)
    (new_root : List Nat) :
    Except ZkShieldedError (SysState × List Ev) :=
  if s.pool.is_active = false then .error .PoolNotActive
  else if s.pool.is_valid_root merkle_root = false then
    .error .InvalidMerkleRoot
  else if amount = 0 then .error .InvalidAmount
  else if s.pool.total_shielded < amount then .error .InsufficientBalance
  else if s.ns.might_contain n1 = true then .error .NullifierAlreadySpent
  else if s.ns.might_contain n2 = true then .error .NullifierAlreadySpent
  else if keccak256 env.vkData ≠ s.pool.vk_hash then
    .error .InvalidVerificationKey
  else
    match env.verify with
    | .error e => .error e
    | .ok false => .error .InvalidProof
    | .ok true =>
      let ns2 := (s.ns.add n1).add n2
      match (if c1 ≠ zero32 then
               (s.tree.insert_with_root c1 new_root).map
                 (fun r => ([Ev.merkleInsert], r.2))
             else .ok (([] : List Ev), s.tree)) with
      | .error e => .error e
      | .ok (insEvs, tree1) =>
        match unshieldTokenLegOutcome s env amount with
        | some e => .error e
        | none =>
          if amount ≤ s.pool.total_shielded then
            let pool1 := s.pool.update_root tree1.root
            let pool2 := { pool1 with
              next_leaf_index := tree1.leaf_count
              total_shielded := s.pool.total_shielded - amount
              last_tx_at := env.clockTs }
            .ok ({ pool := pool2, tree := tree1, ns := ns2 },
                 [Ev.nullifierAdd, Ev.nullifierAdd] ++ insEvs ++
                 [Ev.tokenLeg, Ev.rootUpdate, Ev.poolWrite, Ev.emitEvent])
          else .error .ArithmeticOverflow

/-- `transfer_via_relayer` handler. -/
def transferViaRelayerStep (s : SysState) (env : Env)
    (n1 n2 c1 c2 cfee merkle_root : List Nat) :
    Except ZkShieldedError (SysState × List Ev) :=
  if s.pool.is_active = false then .error .PoolNotActive
  else if s.pool.is_valid_root merkle_root = false then
    .error .InvalidMerkleRoot
  else if env.signer ≠ s.pool.relayer then .error .Unauthorized
  else if s.ns.might_contain n1 = true then .error .NullifierAlreadySpent
  else if s.ns.might_contain n2 = true then .error .NullifierAlreadySpent
  else if keccak256 env.vkData ≠ s.pool.vk_hash then
    .error .InvalidVerificationKey
  else
    match env.verify with
    | .error e => .error e
    | .ok false => .error .InvalidProof
    | .ok true =>
      let ns1 := (s.ns.add n1).add n2
      match s.tree.insert c1 with
      | .error e => .error e
      | .ok (_, tree1) =>
        match tree1.insert c2 with
        | .error e => .error e
        | .ok (_, tree2) =>
          match tree2.insert cfee with
          | .error e => .error e
          | .ok (_, tree3) =>
            let pool1 := s.pool.update_root tree3.root
            let pool2 := { pool1 with
              next_leaf_index := tree3.leaf_count
              last_tx_at := env.clockTs }
            .ok ({ pool := pool2, tree := tree3, ns := ns1 },
                 [.nullifierAdd, .nullifierAdd, .merkleInsert,
                  .merkleInsert, .merkleInsert, .rootUpdate, .poolWrite,
                  .emitEvent])

/-- `initialize_pool` handler (`instructions/initialize_pool.rs`): fresh
active pool with `total_shielded = 0`, a freshly initialised tree of the
default depth and an empty bloom filter with 7 hash functions. -/
def initializePool (authority token_mint vk_hash : List Nat)
    (clockTs : Int) : SysState :=
  let tree := MerkleTreeState.initTree DEFAULT_TREE_DEPTH
  { pool := { authority := authority
              token_mint := token_mint
              merkle_root := tree.root
              tree_depth := DEFAULT_TREE_DEPTH
              next_leaf_index := 0
              vk_hash := vk_hash
              total_shielded := 0
              is_active := true
              historical_roots := []
              max_historical_roots := MAX_HISTORICAL_ROOTS
              created_at := clockTs
              last_tx_at := clockTs
              relayer_fee_bps := 10
              relayer := authority }
    tree := tree
    ns := { count := 0, num_hash_functions := 7,
            bloom_filter := List.replicate 256 0 } }

/-! ## Operation sequences -/

/-- One value-flow operation call with its host environment. -/
inductive OpCall
  | shield (env : Env) (amount : Nat) (commitment new_root : List Nat)
  | transfer (env : Env) (n1 n2 c1 c2 root : List Nat)
  | unshield (env : Env) (n1 n2 c1 c2 root : List Nat) (amount : Nat)
      (new_root : List Nat)
  | relayerTransfer (env : Env) (n1 n2 c1 c2 cfee root : List Nat)

/-- Dispatch one operation. -/
def opStep (s : SysState) : OpCall → Except ZkShieldedError (SysState × List Ev)
  | .shield env a c nr => shieldStep s env a c nr
  | .transfer env n1 n2 c1 c2 root => transferStep s env n1 n2 c1 c2 root
  | .unshield env n1 n2 c1 c2 root a nr =>
    unshieldStep s env n1 n2 c1 c2 root a nr
  | .relayerTransfer env n1 n2 c1 c2 cfee root =>
    transferViaRelayerStep s env n1 n2 c1 c2 cfee root

/-- Run a sequence of operations; any rejection aborts the whole run (on
the host a failed instruction aborts its transaction). -/
def runOps (s : SysState) : List OpCall → Except ZkShieldedError SysState
  | [] => .ok s
  | op :: ops =>
    match opStep s op with
    | .ok r => runOps r.1 ops
    | .error e => .error e

/-- Amount a call shields (0 for non-shield calls). -/
def shieldedAmount : OpCall → Nat
  | .shield _ a _ _ => a
  | _ => 0

/-- Amount a call unshields (0 for non-unshield calls). -/
def unshieldedAmount : OpCall → Nat
  | .unshield _ _ _ _ _ _ a _ => a
  | _ => 0

def sumShielded (ops : List OpCall) : Nat := (ops.map shieldedAmount).sum

def sumUnshielded (ops : List OpCall) : Nat := (ops.map unshieldedAmount).sum


/-! ## Claims -/

/-- C1: the Merkle accumulator is claimed to keep `root` equal to the root
of the complete binary Merkle tree over the inserted leaves (zero-padded)
for every sequence of at most `2^depth` inserts.  This fails: in a
depth-2 tree, after the fourth insert the `filled_subtrees[level+1]`
write-back inside the loop clobbers the level-1 sibling before it is
read, so the root becomes `H(H(L2,L3), H(L2,L3))` instead of
`H(H(L0,L1), H(L2,L3))`.  This theorem evaluates the code at the failing
input. -/
theorem C1_merkle_root_wrong_after_fourth_insert :
    ((insertAll (MerkleTreeState.initTree 2)
        [tleaf 0, tleaf 1, tleaf 2, tleaf 3]).map MerkleTreeState.root) ≠
      .ok (merkleRootSpec 2 [tleaf 0, tleaf 1, tleaf 2, tleaf 3]) ∧
    ((insertAll (MerkleTreeState.initTree 2)
        [tleaf 0, tleaf 1, tleaf 2, tleaf 3]).map MerkleTreeState.root) =
      .ok (hash_pair (hash_pair (tleaf 2) (tleaf 3))
                     (hash_pair (tleaf 2) (tleaf 3))) := by
  constructor
  · decide
  · decide

/-- C9: `insert` fails with `MerkleTreeFull` exactly when
`leaf_count = 2^depth` at entry; otherwise it returns the pre-insert
`leaf_count` as the new leaf's 0-based index and increments `leaf_count`
by one, so `leaf_count ≤ 2^depth` is preserved. -/
theorem C9_insert_capacity (t : MerkleTreeState) (leaf : List Nat)
    (hle : t.leaf_count ≤ 2 ^ t.depth) :
    (t.leaf_count = 2 ^ t.depth ↔ t.insert leaf = .error .MerkleTreeFull) ∧
    (t.leaf_count < 2 ^ t.depth →
      ∃ t1, t.insert leaf = .ok (t.leaf_count, t1) ∧
        t1.leaf_count = t.leaf_count + 1 ∧ t1.depth = t.depth ∧
        t1.leaf_count ≤ 2 ^ t1.depth) := by
  by_cases hlt : t.leaf_count < 2 ^ t.depth
  · have h1 : t.insert leaf = .ok (t.leaf_count,
        { t with
          root := (List.foldl (insertLevel t.leaf_count)
            (leaf, t.leaf_count, t.filled_subtrees) (List.range t.depth)).1
          leaf_count := t.leaf_count + 1
          filled_subtrees := (List.foldl (insertLevel t.leaf_count)
            (leaf, t.leaf_count, t.filled_subtrees) (List.range t.depth)).2.2 }) := by
      simp only [MerkleTreeState.insert, if_pos hlt]
    refine ⟨⟨fun h => absurd h (Nat.ne_of_lt hlt), fun h => ?_⟩, fun _ => ?_⟩
    · rw [h1] at h
      exact Except.noConfusion h
    · exact ⟨_, h1, rfl, rfl, hlt⟩
  · have heq : t.leaf_count = 2 ^ t.depth := Nat.le_antisymm hle (Nat.le_of_not_lt hlt)
    refine ⟨⟨fun _ => ?_, fun _ => heq⟩, fun h => absurd h hlt⟩
    simp only [MerkleTreeState.insert, if_neg hlt]

/-- Witness for C9 at the freshly initialised depth-0 tree. -/
theorem C9_insert_capacity_witness :
    ((MerkleTreeState.initTree 0).leaf_count =
        2 ^ (MerkleTreeState.initTree 0).depth ↔
      (MerkleTreeState.initTree 0).insert ZERO_VALUE =
        .error .MerkleTreeFull) ∧
    ((MerkleTreeState.initTree 0).leaf_count <
        2 ^ (MerkleTreeState.initTree 0).depth →
      ∃ t1, (MerkleTreeState.initTree 0).insert ZERO_VALUE =
          .ok ((MerkleTreeState.initTree 0).leaf_count, t1) ∧
        t1.leaf_count = (MerkleTreeState.initTree 0).leaf_count + 1 ∧
        t1.depth = (MerkleTreeState.initTree 0).depth ∧
        t1.leaf_count ≤ 2 ^ t1.depth) :=
  C9_insert_capacity (MerkleTreeState.initTree 0) ZERO_VALUE (by decide)


/-! ### Bloom-filter lemmas -/

theorem getD_set (l : List Nat) (i j v : Nat) :
    (l.set i v).getD j 0 =
      if i = j ∧ i < l.length then v else l.getD j 0 := by
  induction l generalizing i j with
  | nil => simp [List.getD]
  | cons a t ih =>
    cases i with
    | zero =>
      cases j with
      | zero => simp
      | succ j1 => simp [List.getD]
    | succ i1 =>
      cases j with
      | zero => simp [List.getD]
      | succ j1 =>
        simp only [List.set, List.getD_cons_succ, ih, List.length_cons]
        by_cases hc : i1 = j1 ∧ i1 < t.length
        · rw [if_pos hc, if_pos ⟨by omega, by omega⟩]
        · rw [if_neg hc, if_neg (by omega)]

theorem bloomBit_iff_testBit (bl : List Nat) (b : Nat) :
    bloomBit bl b = (bl.getD (b / 64) 0).testBit (b % 64) := by
  unfold bloomBit
  rw [Nat.shiftLeft_eq, one_mul, Nat.and_two_pow]
  cases hw : (bl.getD (b / 64) 0).testBit (b % 64) <;> simp [hw]

theorem bloomBit_orBit_self (bl : List Nat) (b : Nat)
    (h : b / 64 < bl.length) : bloomBit (orBit bl b) b = true := by
  rw [bloomBit_iff_testBit]
  unfold orBit
  rw [getD_set, if_pos ⟨rfl, h⟩, Nat.shiftLeft_eq, one_mul,
    Nat.testBit_lor, Nat.testBit_two_pow_self]
  simp

theorem bloomBit_orBit_mono (bl : List Nat) (b b1 : Nat)
    (h : bloomBit bl b = true) : bloomBit (orBit bl b1) b = true := by
  rw [bloomBit_iff_testBit] at h ⊢
  unfold orBit
  rw [getD_set]
  by_cases hc : b1 / 64 = b / 64 ∧ b1 / 64 < bl.length
  · rw [if_pos hc, Nat.testBit_lor, hc.1, h, Bool.true_or]
  · rw [if_neg hc]
    exact h

theorem bloomBit_foldl_orBit_mono (L : List Nat) (bl : List Nat) (b : Nat)
    (h : bloomBit bl b = true) : bloomBit (L.foldl orBit bl) b = true := by
  induction L generalizing bl with
  | nil => exact h
  | cons x xs ih => exact ih _ (bloomBit_orBit_mono _ _ _ h)

theorem length_orBit (bl : List Nat) (b : Nat) :
    (orBit bl b).length = bl.length := by
  unfold orBit
  exact List.length_set ..

theorem bloomBit_foldl_orBit_mem (L : List Nat) (bl : List Nat) (b : Nat)
    (hmem : b ∈ L) (hlen : ∀ x ∈ L, x / 64 < bl.length) :
    bloomBit (L.foldl orBit bl) b = true := by
  induction L generalizing bl with
  | nil => cases hmem
  | cons x xs ih =>
    rcases List.mem_cons.mp hmem with h | h
    · subst h
      exact bloomBit_foldl_orBit_mono xs _ b
        (bloomBit_orBit_self bl b (hlen b hmem))
    · refine ih (orBit bl x) h (fun y hy => ?_)
      rw [length_orBit]
      exact hlen y (List.mem_cons_of_mem _ hy)

theorem get_bit_index_lt (n : List Nat) (i : Nat) :
    get_bit_index n i < BLOOM_SIZE_BITS := by
  unfold get_bit_index
  exact Nat.mod_lt _ (by norm_num [BLOOM_SIZE_BITS])

theorem might_contain_add_self (s : NullifierSet) (n : List Nat)
    (hlen : s.bloom_filter.length = 256) :
    (s.add n).might_contain n = true := by
  unfold NullifierSet.might_contain NullifierSet.add
  rw [List.all_eq_true]
  intro i hi
  simp only
  rw [show (List.range s.num_hash_functions).foldl
        (fun bl j => orBit bl (get_bit_index n j)) s.bloom_filter =
      ((List.range s.num_hash_functions).map (get_bit_index n)).foldl
        orBit s.bloom_filter from (List.foldl_map _ _ _ _).symm]
  refine bloomBit_foldl_orBit_mem _ _ _ (List.mem_map_of_mem _ hi) ?_
  intro x hx
  rcases List.mem_map.mp hx with ⟨j, _, rfl⟩
  have := get_bit_index_lt n j
  rw [hlen]
  unfold BLOOM_SIZE_BITS at this
  omega

theorem might_contain_add_mono (s : NullifierSet) (n m : List Nat)
    (h : s.might_contain n = true) : (s.add m).might_contain n = true := by
  unfold NullifierSet.might_contain NullifierSet.add at *
  rw [List.all_eq_true] at h ⊢
  intro i hi
  simp only
  rw [show (List.range s.num_hash_functions).foldl
        (fun bl j => orBit bl (get_bit_index m j)) s.bloom_filter =
      ((List.range s.num_hash_functions).map (get_bit_index m)).foldl
        orBit s.bloom_filter from (List.foldl_map _ _ _ _).symm]
  exact bloomBit_foldl_orBit_mono _ _ _ (by simpa using h i hi)

theorem might_contain_addAll_mono (ms : List (List Nat)) (s : NullifierSet)
    (n : List Nat) (h : s.might_contain n = true) :
    (addAll s ms).might_contain n = true := by
  induction ms generalizing s with
  | nil => exact h
  | cons m ms ih => exact ih _ (might_contain_add_mono _ _ _ h)

/-- C8: once a nullifier is added, `might_contain` answers true, and keeps
answering true after any further sequence of `add`s: `add` only sets bloom
bits and never clears them. -/
theorem C8_bloom_persistence (s : NullifierSet) (n : List Nat)
    (hlen : s.bloom_filter.length = 256) (ms : List (List Nat)) :
    (s.add n).might_contain n = true ∧
    (addAll (s.add n) ms).might_contain n = true := by
  have h1 := might_contain_add_self s n hlen
  exact ⟨h1, might_contain_addAll_mono ms _ n h1⟩

/-- Witness for C8 on the freshly initialised 7-hash empty filter. -/
theorem C8_bloom_persistence_witness :
    (NullifierSet.add
        { count := 0, num_hash_functions := 7,
          bloom_filter := List.replicate 256 0 } (tleaf 0)).might_contain
      (tleaf 0) = true ∧
    (addAll (NullifierSet.add
        { count := 0, num_hash_functions := 7,
          bloom_filter := List.replicate 256 0 } (tleaf 0))
      [tleaf 1, tleaf 2]).might_contain (tleaf 0) = true :=
  C8_bloom_persistence
    { count := 0, num_hash_functions := 7,
      bloom_filter := List.replicate 256 0 }
    (tleaf 0) (by simp) [tleaf 1, tleaf 2]


/-! ### Root-window lemmas -/

/-- Iterated `ShieldedPool::update_root`. -/
def applyUpdates (p : ShieldedPool) (rs : List (List Nat)) : ShieldedPool :=
  rs.foldl ShieldedPool.update_root p

theorem is_valid_root_iff (p : ShieldedPool) (r : List Nat) :
    p.is_valid_root r = true ↔
      p.merkle_root = r ∨ r ∈ p.historical_roots := by
  unfold ShieldedPool.is_valid_root
  by_cases h : p.merkle_root = r
  · simp [h]
  · simp only [beq_iff_eq, if_neg h, List.elem_iff]
    tauto

theorem applyUpdates_nil (p : ShieldedPool) : applyUpdates p [] = p := rfl

theorem applyUpdates_cons (p : ShieldedPool) (f : List Nat)
    (fs : List (List Nat)) :
    applyUpdates p (f :: fs) = applyUpdates (p.update_root f) fs := rfl

theorem update_root_max (p : ShieldedPool) (nr : List Nat) :
    (p.update_root nr).max_historical_roots = p.max_historical_roots := rfl

theorem update_root_root (p : ShieldedPool) (nr : List Nat) :
    (p.update_root nr).merkle_root = nr := rfl

theorem update_root_hist (p : ShieldedPool) (nr : List Nat) :
    (p.update_root nr).historical_roots =
      (if p.historical_roots.length ≥ p.max_historical_roots
       then p.historical_roots.drop 1
       else p.historical_roots) ++ [p.merkle_root] := rfl

/-- A root that is neither current nor in the window, and never comes back
as a new root, stays invalid through any sequence of updates. -/
theorem is_valid_root_never (fs : List (List Nat)) (p : ShieldedPool)
    (r : List Nat) (hfs : r ∉ fs) (hcur : p.merkle_root ≠ r)
    (hhist : r ∉ p.historical_roots) :
    (applyUpdates p fs).is_valid_root r = false := by
  induction fs generalizing p with
  | nil =>
    rw [applyUpdates_nil, ← Bool.not_eq_true, is_valid_root_iff]
    push_neg
    exact ⟨hcur, hhist⟩
  | cons f fs ih =>
    rw [applyUpdates_cons]
    refine ih (p.update_root f) (fun h => hfs (List.mem_cons_of_mem _ h))
      (fun h => hfs ((update_root_root p f ▸ h) ▸ List.mem_cons_self _ _)) ?_
    rw [update_root_hist]
    intro hmem
    rcases List.mem_append.mp hmem with h | h
    · split at h
      · exact hhist (List.drop_subset 1 _ h)
      · exact hhist h
    · exact hcur (List.mem_singleton.mp h).symm

/-- While at least `fs.length` window slots sit in front of an occurrence
of `r`, applying `fs` keeps `r` in the (full) window. -/
theorem is_valid_root_survives (fs : List (List Nat)) (p : ShieldedPool)
    (u w : List (List Nat)) (r : List Nat)
    (hmax : p.historical_roots.length = p.max_historical_roots)
    (hsplit : p.historical_roots = u ++ r :: w)
    (hlen : fs.length ≤ u.length) :
    (applyUpdates p fs).is_valid_root r = true := by
  induction fs generalizing p u w with
  | nil =>
    rw [applyUpdates_nil, is_valid_root_iff]
    right
    rw [hsplit]
    exact List.mem_append.mpr (Or.inr (List.mem_cons_self _ _))
  | cons f fs ih =>
    cases u with
    | nil => simp at hlen
    | cons a u1 =>
      have hpos : 1 ≤ p.historical_roots.length := by
        rw [hsplit]
        simp
      have h1 : (p.update_root f).historical_roots =
          p.historical_roots.drop 1 ++ [p.merkle_root] := by
        rw [update_root_hist, if_pos hmax.ge]
      rw [applyUpdates_cons]
      refine ih (p.update_root f) u1 (w ++ [p.merkle_root]) ?_ ?_
        (by simpa using Nat.le_of_succ_le_succ hlen)
      · rw [h1, update_root_max]
        simp only [List.length_append, List.length_drop,
          List.length_singleton]
        omega
      · rw [h1, hsplit]
        simp

/-- Once updates outnumber the slots in front of the (unique) occurrence
of `r`, `r` is evicted and never valid again. -/
theorem is_valid_root_evicted (fs : List (List Nat)) (p : ShieldedPool)
    (u w : List (List Nat)) (r : List Nat)
    (hmax : p.historical_roots.length = p.max_historical_roots)
    (hsplit : p.historical_roots = u ++ r :: w)
    (hu : r ∉ u) (hw : r ∉ w) (hcur : p.merkle_root ≠ r) (hfs : r ∉ fs)
    (hlen : u.length < fs.length) :
    (applyUpdates p fs).is_valid_root r = false := by
  induction fs generalizing p u w with
  | nil => simp at hlen
  | cons f fs ih =>
    rw [applyUpdates_cons]
    have hne : (p.update_root f).merkle_root ≠ r := by
      rw [update_root_root]
      intro h
      exact hfs (h ▸ List.mem_cons_self _ _)
    have hfs1 : r ∉ fs := fun h => hfs (List.mem_cons_of_mem _ h)
    have hpos : 1 ≤ p.historical_roots.length := by
      rw [hsplit]
      simp only [List.length_append, List.length_cons]
      omega
    have h1 : (p.update_root f).historical_roots =
        p.historical_roots.drop 1 ++ [p.merkle_root] := by
      rw [update_root_hist, if_pos hmax.ge]
    cases u with
    | nil =>
      refine is_valid_root_never fs (p.update_root f) r hfs1 hne ?_
      rw [h1, hsplit]
      intro hmem
      rcases List.mem_append.mp hmem with h | h
      · exact hw (by simpa using h)
      · exact hcur (List.mem_singleton.mp h).symm
    | cons a u1 =>
      refine ih (p.update_root f) u1 (w ++ [p.merkle_root]) ?_ ?_
        (fun h => hu (List.mem_cons_of_mem _ h)) ?_ hne hfs1
        (by simpa using Nat.lt_of_succ_lt_succ hlen)
      · rw [h1, update_root_max]
        simp only [List.length_append, List.length_drop,
          List.length_singleton]
        omega
      · rw [h1, hsplit]
        simp
      · intro hmem
        rcases List.mem_append.mp hmem with h | h
        · exact hw h
        · exact hcur (List.mem_singleton.mp h).symm

/-- C5: `is_valid_root` accepts exactly the current root and the window;
`update_root` appends the pre-update root, evicting the oldest entry when
the window is full; consequently, starting from a full 100-slot window, a
root that is current now stays acceptable for exactly the next 100 root
updates and is rejected from the 101st update on (provided it does not
reappear as a later root). -/
theorem C5_root_window (p : ShieldedPool) (r : List Nat)
    (rs : List (List Nat))
    (hmax : p.max_historical_roots = 100)
    (hfull : p.historical_roots.length = 100)
    (hcur : p.merkle_root = r)
    (hhist : r ∉ p.historical_roots)
    (hrs : r ∉ rs) :
    (∀ q : ShieldedPool, ∀ x : List Nat,
      q.is_valid_root x = true ↔ (q.merkle_root = x ∨ x ∈ q.historical_roots)) ∧
    (∀ q : ShieldedPool, ∀ nr : List Nat,
      (q.update_root nr).merkle_root = nr ∧
      (q.update_root nr).historical_roots =
        (if q.historical_roots.length ≥ q.max_historical_roots
         then q.historical_roots.drop 1
         else q.historical_roots) ++ [q.merkle_root]) ∧
    ((applyUpdates p rs).is_valid_root r = decide (rs.length ≤ 100)) := by
  refine ⟨fun q x => is_valid_root_iff q x,
    fun q nr => ⟨update_root_root q nr, update_root_hist q nr⟩, ?_⟩
  cases rs with
  | nil =>
    rw [applyUpdates_nil,
      show (decide (([] : List (List Nat)).length ≤ 100)) = true by decide]
    rw [is_valid_root_iff]
    exact Or.inl hcur
  | cons f fs =>
    rw [applyUpdates_cons]
    have hhist1 : (p.update_root f).historical_roots =
        p.historical_roots.drop 1 ++ [r] := by
      rw [update_root_hist, if_pos (by omega), hcur]
    have hmax1 : (p.update_root f).historical_roots.length =
        (p.update_root f).max_historical_roots := by
      rw [hhist1, update_root_max, hmax]
      simp [hfull]
    have hfs : r ∉ fs := fun h => hrs (List.mem_cons_of_mem _ h)
    have hlen1 : (p.historical_roots.drop 1).length = 99 := by
      simp [hfull]
    by_cases hc : fs.length ≤ 99
    · rw [show decide ((f :: fs).length ≤ 100) = true by
        simp only [List.length_cons, decide_eq_true_eq]; omega]
      exact is_valid_root_survives fs (p.update_root f)
        (p.historical_roots.drop 1) [] r hmax1 (by rw [hhist1]) (by omega)
    · rw [show decide ((f :: fs).length ≤ 100) = false by
        simp only [List.length_cons, decide_eq_false_iff_not]; omega]
      refine is_valid_root_evicted fs (p.update_root f)
        (p.historical_roots.drop 1) [] r hmax1 (by rw [hhist1])
        (fun h => hhist (List.drop_subset 1 _ h)) (by simp) ?_ hfs (by omega)
      rw [update_root_root]
      intro h
      exact hrs (h ▸ List.mem_cons_self _ _)

/-- Witness for C5: a full window of 100 distinct roots and 101 fresh
updates, after which the old current root is rejected. -/
theorem C5_root_window_witness :
    (∀ q : ShieldedPool, ∀ x : List Nat,
      q.is_valid_root x = true ↔ (q.merkle_root = x ∨ x ∈ q.historical_roots)) ∧
    (∀ q : ShieldedPool, ∀ nr : List Nat,
      (q.update_root nr).merkle_root = nr ∧
      (q.update_root nr).historical_roots =
        (if q.historical_roots.length ≥ q.max_historical_roots
         then q.historical_roots.drop 1
         else q.historical_roots) ++ [q.merkle_root]) ∧
    ((applyUpdates
        { authority := [], token_mint := [], merkle_root := [1],
          tree_depth := 20, next_leaf_index := 0, vk_hash := [],
          total_shielded := 0, is_active := true,
          historical_roots := (List.range 100).map (fun i => [i + 2]),
          max_historical_roots := 100, created_at := 0, last_tx_at := 0,
          relayer_fee_bps := 10, relayer := [] }
        ((List.range 101).map (fun i => [i + 200]))).is_valid_root [1] =
      decide (((List.range 101).map (fun i => [i + 200])).length ≤ 100)) :=
  C5_root_window _ [1] _ rfl (by simp) rfl (by decide) (by decide)


/-! ### Field-encoding lemmas -/

theorem length_toLeBytes (k n : Nat) : (toLeBytes k n).length = k := by
  induction k generalizing n with
  | zero => rfl
  | succ k ih => simp [toLeBytes, ih]

theorem toLeBytes_lt (k n : Nat) : ∀ x ∈ toLeBytes k n, x < 256 := by
  induction k generalizing n with
  | zero => intro x hx; simp [toLeBytes] at hx
  | succ k ih =>
    intro x hx
    rcases List.mem_cons.mp hx with h | h
    · subst h
      exact Nat.mod_lt _ (by norm_num)
    · exact ih (n / 256) x h

theorem numLE_toLeBytes (k n : Nat) : numLE (toLeBytes k n) = n % 256 ^ k := by
  induction k generalizing n with
  | zero => simp [toLeBytes, numLE, Nat.mod_one]
  | succ k ih =>
    have h : 256 ^ (k + 1) = 256 * 256 ^ k := by ring
    simp only [toLeBytes, numLE, ih, h, Nat.mod_mul]

theorem toLeBytes_add (j k n : Nat) :
    toLeBytes (j + k) n = toLeBytes j n ++ toLeBytes k (n / 256 ^ j) := by
  induction j generalizing n with
  | zero => simp [toLeBytes]
  | succ j ih =>
    have h : j + 1 + k = (j + k) + 1 := by omega
    rw [h]
    simp only [toLeBytes, List.cons_append, ih]
    congr 2
    rw [Nat.div_div_eq_div_mul]
    congr 1
    ring

theorem toLeBytes_zero (k : Nat) : toLeBytes k 0 = List.replicate k 0 := by
  induction k with
  | zero => rfl
  | succ k ih => simp [toLeBytes, ih, List.replicate_succ]

theorem numLE_append (xs ys : List Nat) :
    numLE (xs ++ ys) = numLE xs + 256 ^ xs.length * numLE ys := by
  induction xs with
  | nil => simp [numLE]
  | cons a t ih =>
    show a + 256 * numLE (t ++ ys) =
      a + 256 * numLE t + 256 ^ (t.length + 1) * numLE ys
    rw [ih]
    ring

theorem numLE_replicate_zero (k : Nat) : numLE (List.replicate k 0) = 0 := by
  rw [← toLeBytes_zero, numLE_toLeBytes, Nat.zero_mod]

/-- Correctness of the byte-wise subtraction loop: on equal-length byte
lists with no overall underflow it produces the little-endian bytes of
the numeric difference. -/
theorem subLE_correct (p : List Nat) : ∀ (v : List Nat) (b : Nat),
    v.length = p.length → (∀ x ∈ p, x < 256) → (∀ x ∈ v, x < 256) →
    b ≤ 1 → numLE v + b ≤ numLE p →
    subLE b p v = toLeBytes p.length (numLE p - numLE v - b) := by
  induction p with
  | nil =>
    intro v b hlen _ _ _ _
    cases v with
    | nil => rfl
    | cons x xs => simp at hlen
  | cons pb ps ih =>
    intro v b hlen hp hv hb hge
    cases v with
    | nil => simp at hlen
    | cons vb vs =>
      have hpb : pb < 256 := hp pb (List.mem_cons_self _ _)
      have hvb : vb < 256 := hv vb (List.mem_cons_self _ _)
      have hps : ∀ x ∈ ps, x < 256 :=
        fun x hx => hp x (List.mem_cons_of_mem _ hx)
      have hvs : ∀ x ∈ vs, x < 256 :=
        fun x hx => hv x (List.mem_cons_of_mem _ hx)
      have hlen1 : vs.length = ps.length := by simpa using hlen
      simp only [numLE] at hge
      simp only [subLE, numLE, List.length_cons, toLeBytes]
      by_cases hlt : pb < vb + b
      · rw [if_pos hlt]
        congr 1
        · omega
        · rw [ih vs 1 hlen1 hps hvs (by omega) (by omega)]
          congr 1
          omega
      · rw [if_neg hlt]
        congr 1
        · omega
        · rw [ih vs 0 hlen1 hps hvs (by omega) (by omega)]
          congr 1
          omega

theorem numLE_frModulusBytes : numLE frModulusBytes = rBN254 := by decide

theorem frModulusBytes_lt : ∀ x ∈ frModulusBytes, x < 256 := by decide

/-- The encoding loop agrees with the specified encoding on the whole
`i64` range. -/
theorem i64_to_field_bytes_correct (v : Int)
    (h1 : -(2 ^ 63) ≤ v) (h2 : v < 2 ^ 63) :
    i64_to_field_bytes v = fieldEncSpec v := by
  unfold i64_to_field_bytes fieldEncSpec
  by_cases hv : 0 ≤ v
  · rw [if_pos hv, if_pos hv]
    have hn : v.toNat < 256 ^ 8 := by
      have : (256 : Nat) ^ 8 = 2 ^ 64 := by norm_num
      omega
    rw [show (32 : Nat) = 8 + 24 from rfl, toLeBytes_add,
      Nat.div_eq_of_lt hn, toLeBytes_zero]
  · rw [if_neg hv, if_neg hv]
    have habs : v.natAbs ≤ 2 ^ 63 := by omega
    have habs8 : v.natAbs < 256 ^ 8 := by
      have : (256 : Nat) ^ 8 = 2 ^ 64 := by norm_num
      omega
    have hlen : (toLeBytes 8 v.natAbs ++ List.replicate 24 0).length =
        frModulusBytes.length := by
      simp [length_toLeBytes]
      rfl
    have hnum : numLE (toLeBytes 8 v.natAbs ++ List.replicate 24 0) =
        v.natAbs := by
      rw [numLE_append, numLE_replicate_zero, numLE_toLeBytes,
        Nat.mod_eq_of_lt habs8]
      simp
    have hless : numLE (toLeBytes 8 v.natAbs ++ List.replicate 24 0) + 0 ≤
        numLE frModulusBytes := by
      rw [hnum, numLE_frModulusBytes]
      unfold rBN254
      omega
    rw [subLE_correct frModulusBytes _ 0 hlen frModulusBytes_lt
      (by
        intro x hx
        rcases List.mem_append.mp hx with h | h
        · exact toLeBytes_lt 8 v.natAbs x h
        · rw [List.eq_of_mem_replicate h]
          norm_num)
      (by norm_num) hless]
    rw [hnum, numLE_frModulusBytes]
    rfl

/-- C7 counterexample: the claim asserts `public_amount = −amount` for the
supplied `u64` amount, but for `amount = 2^63 + 1` the `as i64` cast wraps
(no overflow trap is involved: the cast is defined-wrapping and the
subsequent negation does not overflow), so the handler passes
`2^63 − 1 ≠ −(2^63 + 1)` to the verifier. -/
theorem C7_public_amount_counterexample :
    unshieldPublicAmount (2 ^ 63 + 1) = 2 ^ 63 - 1 ∧
    ((2 : Int) ^ 63 - 1) ≠ -(((2 ^ 63 + 1 : Nat) : Int)) := by
  constructor
  · decide
  · decide

/-- C7 (amended): `i64_to_field_bytes` returns the 32-byte little-endian
encoding of `v` for `v ≥ 0` and of `r − |v|` for `v < 0`, for every value
in the `i64` range; and `unshield` passes `public_amount = −amount`
whenever `amount < 2^63` (beyond that the `amount as i64` cast wraps). -/
theorem C7_field_encoding_amended :
    (∀ v : Int, -(2 ^ 63) ≤ v → v < 2 ^ 63 →
      i64_to_field_bytes v = fieldEncSpec v) ∧
    (∀ amount : Nat, amount < 2 ^ 63 →
      unshieldPublicAmount amount = -((amount : Nat) : Int)) := by
  refine ⟨i64_to_field_bytes_correct, ?_⟩
  intro a ha
  unfold unshieldPublicAmount u64AsI64 i64Neg
  rw [if_pos ha, if_neg (by omega)]

/-- Witness for C7 at `v = −1000` (the repository's own unit-test value)
and `amount = 1000`. -/
theorem C7_field_encoding_amended_witness :
    i64_to_field_bytes (-1000) = fieldEncSpec (-1000) ∧
    unshieldPublicAmount 1000 = -((1000 : Nat) : Int) :=
  ⟨C7_field_encoding_amended.1 (-1000) (by norm_num) (by norm_num),
   C7_field_encoding_amended.2 1000 (by norm_num)⟩




/-! ### Handler postcondition lemmas -/

theorem bool_ne_false (b : Bool) (h : ¬b = false) : b = true := by
  cases b
  · exact absurd rfl h
  · rfl

theorem shieldStep_ok_spec (s : SysState) (env : Env) (amount : Nat)
    (c nr : List Nat) (s1 : SysState) (evs : List Ev)
    (hok : shieldStep s env amount c nr = .ok (s1, evs)) :
    s.pool.is_active = true ∧ 0 < amount ∧
    s.tree.leaf_count < 2 ^ s.tree.depth ∧
    s.pool.total_shielded + amount < 2 ^ 64 ∧
    s1.tree =
      { s.tree with root := nr, leaf_count := s.tree.leaf_count + 1 } ∧
    s1.ns = s.ns ∧
    s1.pool.total_shielded = s.pool.total_shielded + amount ∧
    evs = [.tokenLeg, .merkleInsert, .rootUpdate, .poolWrite,
           .emitEvent] := by
  unfold shieldStep at hok
  by_cases hact : s.pool.is_active = false
  · rw [if_pos hact] at hok
    exact Except.noConfusion hok
  rw [if_neg hact] at hok
  by_cases hamt : amount = 0
  · rw [if_pos hamt] at hok
    exact Except.noConfusion hok
  rw [if_neg hamt] at hok
  cases hTL : tokenLegOutcome s env with
  | some e => simp [hTL] at hok
  | none =>
  simp only [hTL] at hok
  by_cases hcap : s.tree.leaf_count < 2 ^ s.tree.depth
  case neg =>
    simp only [MerkleTreeState.insert_with_root, if_neg hcap] at hok
    exact Except.noConfusion hok
  simp only [MerkleTreeState.insert_with_root, if_pos hcap] at hok
  by_cases hovf : s.pool.total_shielded + amount < 2 ^ 64
  case neg =>
    rw [if_neg hovf] at hok
    exact Except.noConfusion hok
  rw [if_pos hovf] at hok
  simp only [Except.ok.injEq, Prod.mk.injEq] at hok
  obtain ⟨h1, h2⟩ := hok
  subst h1
  subst h2
  exact ⟨bool_ne_false _ hact, Nat.pos_of_ne_zero hamt, hcap, hovf,
    rfl, rfl, rfl, rfl⟩

theorem transferStep_ok_spec (s : SysState) (env : Env)
    (n1 n2 c1 c2 root : List Nat) (s1 : SysState) (evs : List Ev)
    (hok : transferStep s env n1 n2 c1 c2 root = .ok (s1, evs)) :
    s.pool.is_active = true ∧ s.pool.is_valid_root root = true ∧
    s.ns.might_contain n1 = false ∧ s.ns.might_contain n2 = false ∧
    s1.ns = (s.ns.add n1).add n2 ∧
    s1.pool.total_shielded = s.pool.total_shielded ∧
    s1.tree.leaf_count = s.tree.leaf_count + 2 ∧
    evs = [.nullifierAdd, .nullifierAdd, .merkleInsert, .merkleInsert,
           .rootUpdate, .poolWrite, .emitEvent] := by
  unfold transferStep at hok
  by_cases hact : s.pool.is_active = false
  · rw [if_pos hact] at hok
    exact Except.noConfusion hok
  rw [if_neg hact] at hok
  by_cases hroot : s.pool.is_valid_root root = false
  · rw [if_pos hroot] at hok
    exact Except.noConfusion hok
  rw [if_neg hroot] at hok
  by_cases hm1 : s.ns.might_contain n1 = true
  · rw [if_pos hm1] at hok
    exact Except.noConfusion hok
  rw [if_neg hm1] at hok
  by_cases hm2 : s.ns.might_contain n2 = true
  · rw [if_pos hm2] at hok
    exact Except.noConfusion hok
  rw [if_neg hm2] at hok
  by_cases hvk : keccak256 env.vkData ≠ s.pool.vk_hash
  · rw [if_pos hvk] at hok
    exact Except.noConfusion hok
  rw [if_neg hvk] at hok
  cases hver : env.verify with
  | error e => simp [hver] at hok
  | ok b =>
  cases b with
  | false => simp [hver] at hok
  | true =>
  simp only [hver] at hok
  by_cases hcap1 : s.tree.leaf_count < 2 ^ s.tree.depth
  case neg =>
    simp only [MerkleTreeState.insert, if_neg hcap1] at hok
    exact Except.noConfusion hok
  simp only [MerkleTreeState.insert, if_pos hcap1] at hok
  by_cases hcap2 : s.tree.leaf_count + 1 < 2 ^ s.tree.depth
  case neg =>
    rw [if_neg hcap2] at hok
    exact Except.noConfusion hok
  rw [if_pos hcap2] at hok
  simp only [Except.ok.injEq, Prod.mk.injEq] at hok
  obtain ⟨h1, h2⟩ := hok
  subst h1
  subst h2
  refine ⟨bool_ne_false _ hact, bool_ne_false _ hroot,
    Bool.not_eq_true _ ▸ hm1, Bool.not_eq_true _ ▸ hm2,
    rfl, rfl, rfl, rfl⟩

theorem transferViaRelayerStep_ok_spec (s : SysState) (env : Env)
    (n1 n2 c1 c2 cfee root : List Nat) (s1 : SysState) (evs : List Ev)
    (hok : transferViaRelayerStep s env n1 n2 c1 c2 cfee root =
      .ok (s1, evs)) :
    s.pool.is_active = true ∧ s.pool.is_valid_root root = true ∧
    env.signer = s.pool.relayer ∧
    s.ns.might_contain n1 = false ∧ s.ns.might_contain n2 = false ∧
    s1.ns = (s.ns.add n1).add n2 ∧
    s1.pool.total_shielded = s.pool.total_shielded ∧
    s1.tree.leaf_count = s.tree.leaf_count + 3 := by
  unfold transferViaRelayerStep at hok
  by_cases hact : s.pool.is_active = false
  · rw [if_pos hact] at hok
    exact Except.noConfusion hok
  rw [if_neg hact] at hok
  by_cases hroot : s.pool.is_valid_root root = false
  · rw [if_pos hroot] at hok
    exact Except.noConfusion hok
  rw [if_neg hroot] at hok
  by_cases hsig : env.signer ≠ s.pool.relayer
  · rw [if_pos hsig] at hok
    exact Except.noConfusion hok
  rw [if_neg hsig] at hok
  by_cases hm1 : s.ns.might_contain n1 = true
  · rw [if_pos hm1] at hok
    exact Except.noConfusion hok
  rw [if_neg hm1] at hok
  by_cases hm2 : s.ns.might_contain n2 = true
  · rw [if_pos hm2] at hok
    exact Except.noConfusion hok
  rw [if_neg hm2] at hok
  by_cases hvk : keccak256 env.vkData ≠ s.pool.vk_hash
  · rw [if_pos hvk] at hok
    exact Except.noConfusion hok
  rw [if_neg hvk] at hok
  cases hver : env.verify with
  | error e => simp [hver] at hok
  | ok b =>
  cases b with
  | false => simp [hver] at hok
  | true =>
  simp only [hver] at hok
  by_cases hcap1 : s.tree.leaf_count < 2 ^ s.tree.depth
  case neg =>
    simp only [MerkleTreeState.insert, if_neg hcap1] at hok
    exact Except.noConfusion hok
  simp only [MerkleTreeState.insert, if_pos hcap1] at hok
  by_cases hcap2 : s.tree.leaf_count + 1 < 2 ^ s.tree.depth
  case neg =>
    rw [if_neg hcap2] at hok
    exact Except.noConfusion hok
  simp only [if_pos hcap2] at hok
  by_cases hcap3 : s.tree.leaf_count + 1 + 1 < 2 ^ s.tree.depth
  case neg =>
    rw [if_neg hcap3] at hok
    exact Except.noConfusion hok
  rw [if_pos hcap3] at hok
  simp only [Except.ok.injEq, Prod.mk.injEq] at hok
  obtain ⟨h1, h2⟩ := hok
  subst h1
  subst h2
  refine ⟨bool_ne_false _ hact, bool_ne_false _ hroot, not_not.mp hsig,
    Bool.not_eq_true _ ▸ hm1, Bool.not_eq_true _ ▸ hm2, rfl, rfl, rfl⟩

theorem unshieldStep_ok_spec (s : SysState) (env : Env)
    (n1 n2 c1 c2 root : List Nat) (amount : Nat) (nr : List Nat)
    (s1 : SysState) (evs : List Ev)
    (hok : unshieldStep s env n1 n2 c1 c2 root amount nr = .ok (s1, evs)) :
    s.pool.is_active = true ∧ s.pool.is_valid_root root = true ∧
    0 < amount ∧ amount ≤ s.pool.total_shielded ∧
    s.ns.might_contain n1 = false ∧ s.ns.might_contain n2 = false ∧
    s1.ns = (s.ns.add n1).add n2 ∧
    s1.pool.total_shielded = s.pool.total_shielded - amount ∧
    (c1 ≠ zero32 →
      s.tree.leaf_count < 2 ^ s.tree.depth ∧
      s1.tree =
        { s.tree with root := nr, leaf_count := s.tree.leaf_count + 1 } ∧
      evs = [.nullifierAdd, .nullifierAdd, .merkleInsert, .tokenLeg,
             .rootUpdate, .poolWrite, .emitEvent]) ∧
    (c1 = zero32 → s1.tree = s.tree ∧
      evs = [.nullifierAdd, .nullifierAdd, .tokenLeg, .rootUpdate,
             .poolWrite, .emitEvent]) := by
  unfold unshieldStep at hok
  by_cases hact : s.pool.is_active = false
  · rw [if_pos hact] at hok
    exact Except.noConfusion hok
  rw [if_neg hact] at hok
  by_cases hroot : s.pool.is_valid_root root = false
  · rw [if_pos hroot] at hok
    exact Except.noConfusion hok
  rw [if_neg hroot] at hok
  by_cases hamt : amount = 0
  · rw [if_pos hamt] at hok
    exact Except.noConfusion hok
  rw [if_neg hamt] at hok
  by_cases hbal : s.pool.total_shielded < amount
  · rw [if_pos hbal] at hok
    exact Except.noConfusion hok
  rw [if_neg hbal] at hok
  by_cases hm1 : s.ns.might_contain n1 = true
  · rw [if_pos hm1] at hok
    exact Except.noConfusion hok
  rw [if_neg hm1] at hok
  by_cases hm2 : s.ns.might_contain n2 = true
  · rw [if_pos hm2] at hok
    exact Except.noConfusion hok
  rw [if_neg hm2] at hok
  by_cases hvk : keccak256 env.vkData ≠ s.pool.vk_hash
  · rw [if_pos hvk] at hok
    exact Except.noConfusion hok
  rw [if_neg hvk] at hok
  cases hver : env.verify with
  | error e => simp [hver] at hok
  | ok b =>
  cases b with
  | false => simp [hver] at hok
  | true =>
  simp only [hver] at hok
  by_cases hc1 : c1 = zero32
  · rw [if_neg (not_not_intro hc1)] at hok
    cases hTL : unshieldTokenLegOutcome s env amount with
    | some e => simp [hTL] at hok
    | none =>
    simp only [hTL] at hok
    rw [if_pos (Nat.le_of_not_lt hbal)] at hok
    simp only [Except.ok.injEq, Prod.mk.injEq] at hok
    obtain ⟨h1, h2⟩ := hok
    subst h1
    subst h2
    exact ⟨bool_ne_false _ hact, bool_ne_false _ hroot,
      Nat.pos_of_ne_zero hamt, Nat.le_of_not_lt hbal,
      Bool.not_eq_true _ ▸ hm1, Bool.not_eq_true _ ▸ hm2, rfl, rfl,
      fun h => absurd hc1 h, fun _ => ⟨rfl, rfl⟩⟩
  · rw [if_pos hc1] at hok
    by_cases hcap : s.tree.leaf_count < 2 ^ s.tree.depth
    case neg =>
      simp only [MerkleTreeState.insert_with_root, if_neg hcap,
        Except.map] at hok
      exact Except.noConfusion hok
    simp only [MerkleTreeState.insert_with_root, if_pos hcap,
      Except.map] at hok
    cases hTL : unshieldTokenLegOutcome s env amount with
    | some e => simp [hTL] at hok
    | none =>
    simp only [hTL] at hok
    rw [if_pos (Nat.le_of_not_lt hbal)] at hok
    simp only [Except.ok.injEq, Prod.mk.injEq] at hok
    obtain ⟨h1, h2⟩ := hok
    subst h1
    subst h2
    exact ⟨bool_ne_false _ hact, bool_ne_false _ hroot,
      Nat.pos_of_ne_zero hamt, Nat.le_of_not_lt hbal,
      Bool.not_eq_true _ ▸ hm1, Bool.not_eq_true _ ▸ hm2, rfl, rfl,
      fun _ => ⟨hcap, rfl, rfl⟩, fun h => absurd h hc1⟩


/-! ### Concrete fixtures for counterexamples and witnesses -/

/-- Fresh depth-1 tree. -/
def exTree : MerkleTreeState := MerkleTreeState.initTree 1

/-- Native-asset pool with the given shielded balance whose VK account
holds the empty byte string. -/
def exPool (total : Nat) : ShieldedPool :=
  { authority := [9], token_mint := systemProgramId,
    merkle_root := exTree.root, tree_depth := 1, next_leaf_index := 0,
    vk_hash := keccak256 [], total_shielded := total, is_active := true,
    historical_roots := [], max_historical_roots := 100, created_at := 0,
    last_tx_at := 0, relayer_fee_bps := 10, relayer := [9] }

/-- Empty 1-hash bloom filter (one hash keeps concrete evaluation cheap;
nothing in the claims depends on `k`). -/
def exNS : NullifierSet :=
  { count := 0, num_hash_functions := 1,
    bloom_filter := List.replicate 256 0 }

def exState (total : Nat) : SysState :=
  { pool := exPool total, tree := exTree, ns := exNS }

/-- Benign host environment: empty VK bytes, accepting pairing oracle,
funded pool, succeeding CPIs, signer = pool relayer. -/
def exEnv : Env :=
  { vkData := [], verify := .ok true, clockTs := 7,
    poolLamports := 10 ^ 9, rentMin := 10 ^ 6, tokenCpiOk := true,
    splCheck := none, signer := [9] }

/-- Result of a concrete accepted unshield (change note non-zero). -/
def exUnshieldRes : SysState × List Ev :=
  ((unshieldStep (exState 100) exEnv (tleaf 5) (tleaf 6) (tleaf 3) zero32
      exTree.root 40 (tleaf 12)).toOption).getD (exState 100, [])

/-! ### C2 -/

/-- C2 counterexample: an accepted unshield whose second output commitment
`c2` is non-zero (here `c2 = tleaf 9`, `c1` the zero sentinel) inserts
nothing into the Merkle tree — `leaf_count` stays 0 — although the claim
requires every non-zero output commitment among `c1, c2` to be inserted.
(`total_shielded` correctly drops from 100 to 60.) -/
theorem C2_unshield_counterexample :
    ((unshieldStep (exState 100) exEnv (tleaf 5) (tleaf 6) zero32
        (tleaf 9) exTree.root 40 (tleaf 12)).map
      (fun r => (r.1.tree.leaf_count, r.1.pool.total_shielded))) =
      .ok (0, 60) ∧
    tleaf 9 ≠ zero32 := by
  constructor
  · decide
  · decide

/-- C2 (amended): every accepted unshield requires
`total_shielded ≥ amount` at entry, adds both nullifiers to the set,
decreases `total_shielded` by exactly `amount`, and inserts only
`output_commitment_1`, and only when it is non-zero;
`output_commitment_2` is never inserted. -/
theorem C2_unshield_commit_amended (s : SysState) (env : Env)
    (n1 n2 c1 c2 root : List Nat) (amount : Nat) (nr : List Nat)
    (s1 : SysState) (evs : List Ev)
    (hok : unshieldStep s env n1 n2 c1 c2 root amount nr = .ok (s1, evs)) :
    amount ≤ s.pool.total_shielded ∧
    s1.ns = (s.ns.add n1).add n2 ∧
    s1.pool.total_shielded = s.pool.total_shielded - amount ∧
    (c1 ≠ zero32 → s1.tree.leaf_count = s.tree.leaf_count + 1 ∧
      s1.tree.root = nr) ∧
    (c1 = zero32 → s1.tree = s.tree) := by
  obtain ⟨-, -, -, h4, -, -, h7, h8, h9, h10⟩ :=
    unshieldStep_ok_spec s env n1 n2 c1 c2 root amount nr s1 evs hok
  refine ⟨h4, h7, h8, fun h => ?_, fun h => (h10 h).1⟩
  rw [(h9 h).2.1]
  exact ⟨rfl, rfl⟩

/-- Witness for C2 (amended) on a concrete accepted unshield with a
non-zero change note. -/
theorem C2_unshield_commit_amended_witness :
    40 ≤ (exState 100).pool.total_shielded ∧
    exUnshieldRes.1.ns =
      (((exState 100).ns.add (tleaf 5)).add (tleaf 6)) ∧
    exUnshieldRes.1.pool.total_shielded =
      (exState 100).pool.total_shielded - 40 ∧
    (tleaf 3 ≠ zero32 →
      exUnshieldRes.1.tree.leaf_count =
        (exState 100).tree.leaf_count + 1 ∧
      exUnshieldRes.1.tree.root = tleaf 12) ∧
    (tleaf 3 = zero32 → exUnshieldRes.1.tree = (exState 100).tree) :=
  C2_unshield_commit_amended (exState 100) exEnv (tleaf 5) (tleaf 6)
    (tleaf 3) zero32 exTree.root 40 (tleaf 12) exUnshieldRes.1
    exUnshieldRes.2 (by decide)

/-! ### C3 -/

/-- Shielded-state mutation events. -/
def isMutEv : Ev → Bool
  | .merkleInsert => true
  | .nullifierAdd => true
  | .rootUpdate => true
  | .poolWrite => true
  | _ => false

/-- The ordering property the claim asserts: no shielded-state mutation
occurs after a token-leg event (the token leg comes last among
state-changing effects). -/
def tokenLegLast (evs : List Ev) : Prop :=
  ∀ pre post, evs = pre ++ Ev.tokenLeg :: post →
    ∀ e ∈ post, isMutEv e = false

/-- C3 counterexample: a concrete accepted shield performs the token leg
first, then the commitment insertion, root update and pool writes — the
trace violates `tokenLegLast`, contradicting the claim that the token
transfer is executed only after all shielded-state mutations. -/
theorem C3_commit_order_counterexample :
    (shieldStep (exState 0) exEnv 5 (tleaf 1) (tleaf 11)).map Prod.snd =
      .ok [Ev.tokenLeg, Ev.merkleInsert, Ev.rootUpdate, Ev.poolWrite,
           Ev.emitEvent] ∧
    ¬ tokenLegLast [Ev.tokenLeg, Ev.merkleInsert, Ev.rootUpdate,
        Ev.poolWrite, Ev.emitEvent] := by
  constructor
  · decide
  · intro h
    have h2 := h [] [Ev.merkleInsert, Ev.rootUpdate, Ev.poolWrite,
      Ev.emitEvent] rfl Ev.merkleInsert (by simp)
    simp [isMutEv] at h2

/-- C3 (amended): the commit order is fixed, but the token leg is not
last: shield runs the token leg before any shielded-state mutation, and
unshield appends both nullifiers and the optional change-note insertion
before the token leg but performs the root update and pool scalar writes
after it.  Atomicity on token-leg failure is the host transaction abort,
not the ordering. -/
theorem C3_commit_order_amended (s : SysState) (env : Env) :
    (∀ amount c nr s1 evs,
      shieldStep s env amount c nr = .ok (s1, evs) →
      evs = [.tokenLeg, .merkleInsert, .rootUpdate, .poolWrite,
             .emitEvent] ∧ ¬ tokenLegLast evs) ∧
    (∀ n1 n2 c1 c2 root amount nr s1 evs,
      unshieldStep s env n1 n2 c1 c2 root amount nr = .ok (s1, evs) →
      evs = [Ev.nullifierAdd, Ev.nullifierAdd] ++
        (if c1 ≠ zero32 then [Ev.merkleInsert] else []) ++
        [Ev.tokenLeg, Ev.rootUpdate, Ev.poolWrite, Ev.emitEvent] ∧
      ¬ tokenLegLast evs) := by
  constructor
  · intro amount c nr s1 evs hok
    obtain ⟨-, -, -, -, -, -, -, hevs⟩ :=
      shieldStep_ok_spec s env amount c nr s1 evs hok
    subst hevs
    refine ⟨rfl, fun h => ?_⟩
    have h2 := h [] [Ev.merkleInsert, Ev.rootUpdate, Ev.poolWrite,
      Ev.emitEvent] rfl Ev.merkleInsert (by simp)
    simp [isMutEv] at h2
  · intro n1 n2 c1 c2 root amount nr s1 evs hok
    obtain ⟨-, -, -, -, -, -, -, -, h9, h10⟩ :=
      unshieldStep_ok_spec s env n1 n2 c1 c2 root amount nr s1 evs hok
    by_cases hc1 : c1 = zero32
    · obtain ⟨-, hevs⟩ := h10 hc1
      subst hevs
      rw [if_neg (not_not_intro hc1)]
      refine ⟨rfl, fun h => ?_⟩
      have h2 := h [Ev.nullifierAdd, Ev.nullifierAdd]
        [Ev.rootUpdate, Ev.poolWrite, Ev.emitEvent] rfl Ev.rootUpdate
        (by simp)
      simp [isMutEv] at h2
    · obtain ⟨-, -, hevs⟩ := h9 hc1
      subst hevs
      rw [if_pos hc1]
      refine ⟨rfl, fun h => ?_⟩
      have h2 := h [Ev.nullifierAdd, Ev.nullifierAdd, Ev.merkleInsert]
        [Ev.rootUpdate, Ev.poolWrite, Ev.emitEvent] rfl Ev.rootUpdate
        (by simp)
      simp [isMutEv] at h2

/-- Result of a concrete accepted shield. -/
def exShieldRes : SysState × List Ev :=
  ((shieldStep (exState 0) exEnv 5 (tleaf 1) (tleaf 11)).toOption).getD
    (exState 0, [])

/-- Witness for C3 (amended) on concrete accepted shield and unshield
calls. -/
theorem C3_commit_order_amended_witness :
    (exShieldRes.2 = [Ev.tokenLeg, Ev.merkleInsert, Ev.rootUpdate,
       Ev.poolWrite, Ev.emitEvent] ∧ ¬ tokenLegLast exShieldRes.2) ∧
    (exUnshieldRes.2 = [Ev.nullifierAdd, Ev.nullifierAdd] ++
       (if tleaf 3 ≠ zero32 then [Ev.merkleInsert] else []) ++
       [Ev.tokenLeg, Ev.rootUpdate, Ev.poolWrite, Ev.emitEvent] ∧
     ¬ tokenLegLast exUnshieldRes.2) :=
  ⟨(C3_commit_order_amended (exState 0) exEnv).1 5 (tleaf 1) (tleaf 11)
      exShieldRes.1 exShieldRes.2 (by decide),
   (C3_commit_order_amended (exState 100) exEnv).2 (tleaf 5) (tleaf 6)
      (tleaf 3) zero32 exTree.root 40 (tleaf 12) exUnshieldRes.1
      exUnshieldRes.2 (by decide)⟩

/-! ### C4 -/

/-- C4: in transfer, unshield and transfer_via_relayer, once the prologue
checks that precede the nullifier stage pass (pool active, root in the
window, and for unshield a positive amount within the shielded balance;
for the relayer variant the relayer-identity gate), a pre-state bloom hit
on either nullifier rejects the call with `NullifierAlreadySpent` — for
every proof-verification outcome, VK content and token-leg environment,
so the rejection happens before proof verification, with no state
mutation and no token movement (the call returns an error and produces no
post-state). -/
theorem C4_bloom_hit_rejection (s : SysState) (env : Env)
    (n1 n2 : List Nat)
    (hact : s.pool.is_active = true)
    (hhit : s.ns.might_contain n1 = true ∨
            s.ns.might_contain n2 = true) :
    (∀ c1 c2 root, s.pool.is_valid_root root = true →
      transferStep s env n1 n2 c1 c2 root =
        .error .NullifierAlreadySpent) ∧
    (∀ c1 c2 root amount nr, s.pool.is_valid_root root = true →
      0 < amount → amount ≤ s.pool.total_shielded →
      unshieldStep s env n1 n2 c1 c2 root amount nr =
        .error .NullifierAlreadySpent) ∧
    (∀ c1 c2 cfee root, s.pool.is_valid_root root = true →
      env.signer = s.pool.relayer →
      transferViaRelayerStep s env n1 n2 c1 c2 cfee root =
        .error .NullifierAlreadySpent) := by
  refine ⟨fun c1 c2 root hroot => ?_,
    fun c1 c2 root amount nr hroot hamt hbal => ?_,
    fun c1 c2 cfee root hroot hsig => ?_⟩
  · unfold transferStep
    rw [if_neg (by simp [hact]), if_neg (by simp [hroot])]
    by_cases hm1 : s.ns.might_contain n1 = true
    · rw [if_pos hm1]
    · rw [if_neg hm1, if_pos (hhit.resolve_left hm1)]
  · unfold unshieldStep
    rw [if_neg (by simp [hact]), if_neg (by simp [hroot]),
      if_neg (by omega), if_neg (by omega)]
    by_cases hm1 : s.ns.might_contain n1 = true
    · rw [if_pos hm1]
    · rw [if_neg hm1, if_pos (hhit.resolve_left hm1)]
  · unfold transferViaRelayerStep
    rw [if_neg (by simp [hact]), if_neg (by simp [hroot]),
      if_neg (not_not_intro hsig)]
    by_cases hm1 : s.ns.might_contain n1 = true
    · rw [if_pos hm1]
    · rw [if_neg hm1, if_pos (hhit.resolve_left hm1)]

/-- State whose bloom filter already contains `tleaf 5`. -/
def hitState : SysState :=
  { exState 100 with ns := exNS.add (tleaf 5) }

/-- Witness for C4 on a state whose filter contains `tleaf 5`. -/
theorem C4_bloom_hit_rejection_witness :
    transferStep hitState exEnv (tleaf 5) (tleaf 6) (tleaf 1) (tleaf 2)
      exTree.root = .error .NullifierAlreadySpent ∧
    unshieldStep hitState exEnv (tleaf 5) (tleaf 6) (tleaf 1) (tleaf 2)
      exTree.root 40 (tleaf 12) = .error .NullifierAlreadySpent ∧
    transferViaRelayerStep hitState exEnv (tleaf 5) (tleaf 6) (tleaf 1)
      (tleaf 2) (tleaf 3) exTree.root = .error .NullifierAlreadySpent :=
  ⟨(C4_bloom_hit_rejection hitState exEnv (tleaf 5) (tleaf 6) (by decide)
      (Or.inl (by decide))).1 (tleaf 1) (tleaf 2) exTree.root (by decide),
   (C4_bloom_hit_rejection hitState exEnv (tleaf 5) (tleaf 6) (by decide)
      (Or.inl (by decide))).2.1 (tleaf 1) (tleaf 2) exTree.root 40
      (tleaf 12) (by decide) (by decide) (by decide),
   (C4_bloom_hit_rejection hitState exEnv (tleaf 5) (tleaf 6) (by decide)
      (Or.inl (by decide))).2.2 (tleaf 1) (tleaf 2) (tleaf 3) exTree.root
      (by decide) (by decide)⟩


/-! ### C6 -/

theorem sumShielded_cons (op : OpCall) (ops : List OpCall) :
    sumShielded (op :: ops) = shieldedAmount op + sumShielded ops := by
  simp [sumShielded]

theorem sumUnshielded_cons (op : OpCall) (ops : List OpCall) :
    sumUnshielded (op :: ops) =
      unshieldedAmount op + sumUnshielded ops := by
  simp [sumUnshielded]

/-- Per-operation `total_shielded` accounting. -/
theorem opStep_total (s : SysState) (op : OpCall) (r : SysState × List Ev)
    (h : opStep s op = .ok r) :
    unshieldedAmount op ≤ s.pool.total_shielded ∧
    r.1.pool.total_shielded + unshieldedAmount op =
      s.pool.total_shielded + shieldedAmount op := by
  cases op with
  | shield env a c nr =>
    obtain ⟨-, -, -, -, -, -, h7, -⟩ :=
      shieldStep_ok_spec s env a c nr r.1 r.2 h
    simp only [shieldedAmount, unshieldedAmount]
    omega
  | transfer env n1 n2 c1 c2 root =>
    obtain ⟨-, -, -, -, -, h6, -, -⟩ :=
      transferStep_ok_spec s env n1 n2 c1 c2 root r.1 r.2 h
    simp only [shieldedAmount, unshieldedAmount]
    omega
  | unshield env n1 n2 c1 c2 root a nr =>
    obtain ⟨-, -, -, h4, -, -, -, h8, -, -⟩ :=
      unshieldStep_ok_spec s env n1 n2 c1 c2 root a nr r.1 r.2 h
    simp only [shieldedAmount, unshieldedAmount]
    omega
  | relayerTransfer env n1 n2 c1 c2 cfee root =>
    obtain ⟨-, -, -, -, -, -, h7, -⟩ :=
      transferViaRelayerStep_ok_spec s env n1 n2 c1 c2 cfee root r.1 r.2 h
    simp only [shieldedAmount, unshieldedAmount]
    omega

/-- Accounting along an accepted run. -/
theorem runOps_total (ops : List OpCall) : ∀ s0 s : SysState,
    runOps s0 ops = .ok s →
    s.pool.total_shielded + sumUnshielded ops =
      s0.pool.total_shielded + sumShielded ops := by
  induction ops with
  | nil =>
    intro s0 s h
    simp only [runOps, Except.ok.injEq] at h
    subst h
    simp [sumShielded, sumUnshielded]
  | cons op ops ih =>
    intro s0 s h
    cases hstep : opStep s0 op with
    | error e => simp [runOps, hstep] at h
    | ok r =>
      simp only [runOps, hstep] at h
      have h1 := opStep_total s0 op r hstep
      have h2 := ih r.1 s h
      rw [sumShielded_cons, sumUnshielded_cons]
      omega

/-- C6: the pool starts at `total_shielded = 0` after `initialize_pool`;
along every accepted run, `total_shielded` plus everything unshielded
equals the starting total plus everything shielded (so from a fresh pool,
`total_shielded = Σ shielded − Σ unshielded`); every accepted transfer
and relayer transfer leaves `total_shielded` unchanged; and a shield
whose `u64` addition would overflow fails with `ArithmeticOverflow`. -/
theorem C6_value_conservation :
    (∀ (auth mint vk : List Nat) (ts : Int),
      (initializePool auth mint vk ts).pool.total_shielded = 0) ∧
    (∀ (ops : List OpCall) (s0 s : SysState), runOps s0 ops = .ok s →
      s.pool.total_shielded + sumUnshielded ops =
        s0.pool.total_shielded + sumShielded ops) ∧
    (∀ (s : SysState) (env : Env) (n1 n2 c1 c2 root : List Nat)
       (s1 : SysState) (evs : List Ev),
      transferStep s env n1 n2 c1 c2 root = .ok (s1, evs) →
      s1.pool.total_shielded = s.pool.total_shielded) ∧
    (∀ (s : SysState) (env : Env) (n1 n2 c1 c2 cfee root : List Nat)
       (s1 : SysState) (evs : List Ev),
      transferViaRelayerStep s env n1 n2 c1 c2 cfee root = .ok (s1, evs) →
      s1.pool.total_shielded = s.pool.total_shielded) ∧
    (∀ (s : SysState) (env : Env) (amount : Nat) (c nr : List Nat),
      s.pool.is_active = true →
      s.tree.leaf_count < 2 ^ s.tree.depth →
      tokenLegOutcome s env = none →
      s.pool.total_shielded < 2 ^ 64 →
      2 ^ 64 ≤ s.pool.total_shielded + amount →
      shieldStep s env amount c nr = .error .ArithmeticOverflow) := by
  refine ⟨fun auth mint vk ts => rfl, runOps_total,
    fun s env n1 n2 c1 c2 root s1 evs h =>
      (transferStep_ok_spec s env n1 n2 c1 c2 root s1 evs h).2.2.2.2.2.1,
    fun s env n1 n2 c1 c2 cfee root s1 evs h =>
      (transferViaRelayerStep_ok_spec s env n1 n2 c1 c2 cfee root s1 evs
        h).2.2.2.2.2.2.1,
    fun s env amount c nr hact hcap hTL hlt hovf => ?_⟩
  unfold shieldStep
  rw [if_neg (by simp [hact]), if_neg (by omega)]
  simp only [hTL, MerkleTreeState.insert_with_root, if_pos hcap]
  rw [if_neg (by omega)]

/-- Result of a one-shield accepted run. -/
def exRunRes : SysState :=
  ((runOps (exState 0)
      [OpCall.shield exEnv 5 (tleaf 1) (tleaf 11)]).toOption).getD
    (exState 0)

/-- Result of a concrete accepted transfer. -/
def exTransferRes : SysState × List Ev :=
  ((transferStep (exState 0) exEnv (tleaf 5) (tleaf 6) (tleaf 1) (tleaf 2)
      exTree.root).toOption).getD (exState 0, [])

/-- Depth-2 variant of the fixture state (room for three inserts). -/
def exState2 : SysState :=
  { pool := { exPool 0 with
      merkle_root := (MerkleTreeState.initTree 2).root
      tree_depth := 2 }
    tree := MerkleTreeState.initTree 2
    ns := exNS }

/-- Result of a concrete accepted relayer transfer. -/
def exTvrRes : SysState × List Ev :=
  ((transferViaRelayerStep exState2 exEnv (tleaf 5) (tleaf 6) (tleaf 1)
      (tleaf 2) (tleaf 3)
      (MerkleTreeState.initTree 2).root).toOption).getD (exState2, [])

/-- Witness for C6 on a fresh pool, a one-shield run, a concrete accepted
transfer and relayer transfer, and an overflowing shield. -/
theorem C6_value_conservation_witness :
    (initializePool [9] systemProgramId (keccak256 [])
        0).pool.total_shielded = 0 ∧
    exRunRes.pool.total_shielded +
        sumUnshielded [OpCall.shield exEnv 5 (tleaf 1) (tleaf 11)] =
      (exState 0).pool.total_shielded +
        sumShielded [OpCall.shield exEnv 5 (tleaf 1) (tleaf 11)] ∧
    exTransferRes.1.pool.total_shielded =
      (exState 0).pool.total_shielded ∧
    exTvrRes.1.pool.total_shielded = exState2.pool.total_shielded ∧
    shieldStep (exState (2 ^ 64 - 3)) exEnv 5 (tleaf 1) (tleaf 11) =
      .error .ArithmeticOverflow :=
  ⟨C6_value_conservation.1 [9] systemProgramId (keccak256 []) 0,
   C6_value_conservation.2.1 [OpCall.shield exEnv 5 (tleaf 1) (tleaf 11)]
     (exState 0) exRunRes (by decide),
   C6_value_conservation.2.2.1 (exState 0) exEnv (tleaf 5) (tleaf 6)
     (tleaf 1) (tleaf 2) exTree.root exTransferRes.1 exTransferRes.2
     (by decide),
   C6_value_conservation.2.2.2.1 exState2 exEnv (tleaf 5) (tleaf 6)
     (tleaf 1) (tleaf 2) (tleaf 3) (MerkleTreeState.initTree 2).root
     exTvrRes.1 exTvrRes.2 (by decide),
   C6_value_conservation.2.2.2.2 (exState (2 ^ 64 - 3)) exEnv 5 (tleaf 1)
     (tleaf 11) (by decide) (by decide) (by decide) (by decide)
     (by decide)⟩

/-! ### C10 -/

/-- C10: no check relates `nullifier_1` to `nullifier_2`; both bloom
pre-checks read the pre-state, so a transfer supplying
`nullifier_1 = nullifier_2 = n` with `n` not in the filter passes both
`NullifierAlreadySpent` checks and, when the proof verifies (and the tree
has room), is accepted, adding the same nullifier twice (`count` grows by
two). -/
theorem C10_duplicate_nullifier_accepted (s : SysState) (env : Env)
    (n c1 c2 root : List Nat)
    (hact : s.pool.is_active = true)
    (hroot : s.pool.is_valid_root root = true)
    (hmc : s.ns.might_contain n = false)
    (hvk : keccak256 env.vkData = s.pool.vk_hash)
    (hver : env.verify = .ok true)
    (hcap : s.tree.leaf_count + 1 < 2 ^ s.tree.depth) :
    ∃ r, transferStep s env n n c1 c2 root = .ok r ∧
      r.1.ns = (s.ns.add n).add n ∧
      r.1.ns.count = s.ns.count + 2 := by
  unfold transferStep
  rw [if_neg (by simp [hact]), if_neg (by simp [hroot]),
    if_neg (by simp [hmc]), if_neg (by simp [hmc]),
    if_neg (not_not_intro hvk)]
  simp only [hver, MerkleTreeState.insert,
    if_pos (Nat.lt_of_succ_lt hcap)]
  simp only [if_pos hcap]
  exact ⟨_, rfl, rfl, rfl⟩

/-- Witness for C10 on the concrete fixture state with
`n = tleaf 5` duplicated. -/
theorem C10_duplicate_nullifier_accepted_witness :
    ∃ r, transferStep (exState 0) exEnv (tleaf 5) (tleaf 5) (tleaf 1)
        (tleaf 2) exTree.root = .ok r ∧
      r.1.ns = (((exState 0).ns.add (tleaf 5)).add (tleaf 5)) ∧
      r.1.ns.count = (exState 0).ns.count + 2 :=
  C10_duplicate_nullifier_accepted (exState 0) exEnv (tleaf 5) (tleaf 1)
    (tleaf 2) exTree.root (by decide) (by decide) (by decide) (by decide)
    (by decide) (by decide)

end ZkShielded
